import Mathlib

/-!
Verification of the radr ADR-management engine (actions.rs, domain.rs,
repository/fs.rs) against its natural-language specification.

Modelling conventions.
A file's content is represented as the list of its newline-terminated
lines (`Content := List Line`); a `Line` is the list of Unicode scalar
values (`List Char`) of one line, which contains no newline character.
All files written by the program end in a newline and contain no
carriage returns, so this representation is byte-faithful: two such
files are byte-identical exactly when their line lists are equal.
Rust byte indices coincide with character indices on the ASCII
prefixes the code inspects.
-/

abbrev Line := List Char

abbrev Content := List Line

/-- Shorthand: the character list of a string literal. -/
def S (s : String) : Line := s.data

/-- Rust `str::starts_with` on our line representation: `sw pat l` is
true when `pat` is a prefix of `l`. -/
def sw : Line → Line → Bool
  | [], _ => true
  | _ :: _, [] => false
  | p :: ps, c :: cs => p == c && sw ps cs

/-- Rust `str::strip_prefix`. -/
def stripPfx (pat l : Line) : Option Line :=
  if sw pat l then some (l.drop pat.length) else none

/-- The characters Rust `char::is_whitespace` recognises
(the Unicode White_Space property). -/
def isRustWs (c : Char) : Bool :=
  c.toNat == 0x09 || c.toNat == 0x0a || c.toNat == 0x0b || c.toNat == 0x0c ||
  c.toNat == 0x0d || c.toNat == 0x20 || c.toNat == 0x85 || c.toNat == 0xa0 ||
  c.toNat == 0x1680 ||
  (0x2000 ≤ c.toNat && c.toNat ≤ 0x200a) ||
  c.toNat == 0x2028 || c.toNat == 0x2029 || c.toNat == 0x202f ||
  c.toNat == 0x205f || c.toNat == 0x3000

/-- Rust `char::is_ascii_whitespace`: space, tab, newline, form feed,
carriage return (used by `slugify`). -/
def isAsciiWs (c : Char) : Bool :=
  c == ' ' || c == '\t' || c == '\n' || c == '\x0c' || c == '\x0d'

/-- Rust `str::trim` (both ends, Unicode whitespace). -/
def trimL (l : Line) : Line :=
  ((l.dropWhile isRustWs).reverse.dropWhile isRustWs).reverse

def isDigitB (c : Char) : Bool := 48 ≤ c.toNat && c.toNat ≤ 57

def digVal (c : Char) : Nat := c.toNat - 48

/-- Decimal digit character for a value below ten. -/
def digCh (n : Nat) : Char :=
  match n with
  | 0 => '0' | 1 => '1' | 2 => '2' | 3 => '3' | 4 => '4'
  | 5 => '5' | 6 => '6' | 7 => '7' | 8 => '8' | _ => '9'

/-- Fuel-bounded helper for the decimal digit string; the fuel always
suffices because a number has fewer digits than its value plus one. -/
def natDigitsAux : Nat → Nat → Line
  | 0, _ => []
  | fuel + 1, n =>
    if n < 10 then [digCh n]
    else natDigitsAux fuel (n / 10) ++ [digCh (n % 10)]

/-- Decimal digit string of a natural number (Rust `{}` formatting). -/
def natDigits (n : Nat) : Line := natDigitsAux (n + 1) n

theorem natDigitsAux_irrel :
    ∀ f1 n, n < f1 → ∀ f2, n < f2 → natDigitsAux f1 n = natDigitsAux f2 n := by
  intro f1
  induction f1 with
  | zero => intro n h; omega
  | succ f ih =>
    intro n h f2 h2
    cases f2 with
    | zero => omega
    | succ g =>
      rw [natDigitsAux, natDigitsAux]
      by_cases h10 : n < 10
      · rw [if_pos h10, if_pos h10]
      · rw [if_neg h10, if_neg h10]
        have hd : n / 10 < n := Nat.div_lt_self (by omega) (by omega)
        rw [ih (n / 10) (by omega) g (by omega)]

theorem natDigits_unfold (n : Nat) :
    natDigits n = if n < 10 then [digCh n] else natDigits (n / 10) ++ [digCh (n % 10)] := by
  show natDigitsAux (n + 1) n = _
  rw [natDigitsAux]
  by_cases h10 : n < 10
  · rw [if_pos h10, if_pos h10]
  · rw [if_neg h10, if_neg h10]
    have hd : n / 10 < n := Nat.div_lt_self (by omega) (by omega)
    rw [natDigitsAux_irrel n (n / 10) (by omega) (n / 10 + 1) (by omega)]
    rfl

/-- Rust `{:04}` formatting: zero-pad the decimal form to width 4. -/
def pad4 (n : Nat) : Line :=
  List.replicate (4 - (natDigits n).length) '0' ++ natDigits n

/-- Value of a digit string, most significant first. -/
def digitsVal (l : Line) : Nat := l.foldl (fun a c => 10 * a + digVal c) 0

/-- Rust `str::parse::<u32>()`: optional leading `+`, at least one digit,
all digits, value below `2^32`. -/
def parseU32 (l : Line) : Option Nat :=
  let l' := if l.head? == some '+' then l.tail else l
  if l' ≠ [] ∧ l'.all isDigitB ∧ digitsVal l' < 2 ^ 32 then some (digitsVal l')
  else none

/-- Rust `char::to_ascii_lowercase`. -/
def toLowerAscii (c : Char) : Char :=
  if 65 ≤ c.toNat ∧ c.toNat ≤ 90 then Char.ofNat (c.toNat + 32) else c

/-- Rust `char::is_ascii_alphanumeric`. -/
def isAlnumB (c : Char) : Bool :=
  (48 ≤ c.toNat && c.toNat ≤ 57) || (65 ≤ c.toNat && c.toNat ≤ 90) ||
  (97 ≤ c.toNat && c.toNat ≤ 122)

/-- Lowercase ASCII alphanumeric (digit or lowercase letter). -/
def isLowerAlnumB (c : Char) : Bool :=
  (48 ≤ c.toNat && c.toNat ≤ 57) || (97 ≤ c.toNat && c.toNat ≤ 122)

theorem toNat_toLowerAscii_upper (c : Char) (h : 65 ≤ c.toNat ∧ c.toNat ≤ 90) :
    (toLowerAscii c).toNat = c.toNat + 32 := by
  have hv : (c.toNat + 32).isValidChar := by
    constructor
    · omega
  unfold toLowerAscii
  rw [if_pos h]
  unfold Char.ofNat
  rw [dif_pos hv]
  simp [Char.ofNatAux, Char.toNat, UInt32.toNat, UInt32.ofNatCore]

theorem toLowerAscii_eq_self (c : Char) (h : ¬(65 ≤ c.toNat ∧ c.toNat ≤ 90)) :
    toLowerAscii c = c := by
  unfold toLowerAscii
  rw [if_neg h]

theorem isDigitB_not_ws {c : Char} (h : isDigitB c = true) : isRustWs c = false := by
  simp [isDigitB] at h
  simp [isRustWs]
  omega

theorem digVal_digCh {n : Nat} (h : n < 10) : digVal (digCh n) = n := by
  interval_cases n <;> decide

theorem natDigits_ne_nil (n : Nat) : natDigits n ≠ [] := by
  rw [natDigits_unfold]
  split
  · simp
  · simp

theorem natDigits_all_digit (n : Nat) : ∀ c ∈ natDigits n, isDigitB c = true := by
  induction n using Nat.strong_induction_on with
  | _ n ih =>
    rw [natDigits_unfold]
    by_cases h10 : n < 10
    · rw [if_pos h10]
      intro c hc
      simp at hc
      subst hc
      interval_cases n <;> decide
    · rw [if_neg h10]
      intro c hc
      rcases List.mem_append.1 hc with h1 | h1
      · exact ih (n / 10) (Nat.div_lt_self (by omega) (by omega)) c h1
      · simp at h1
        subst h1
        have hm : n % 10 < 10 := by omega
        interval_cases hh : n % 10 <;> simp_all <;> decide

theorem digitsVal_natDigits (n : Nat) : digitsVal (natDigits n) = n := by
  induction n using Nat.strong_induction_on with
  | _ n ih =>
    rw [natDigits_unfold]
    by_cases h10 : n < 10
    · rw [if_pos h10]
      simp [digitsVal, digVal_digCh h10]
    · rw [if_neg h10]
      have hm : n % 10 < 10 := by omega
      have ihd := ih (n / 10) (Nat.div_lt_self (by omega) (by omega))
      unfold digitsVal at *
      rw [List.foldl_append]
      simp [ihd, digVal_digCh hm]
      omega

theorem natDigits_head_ne_zero {n : Nat} (h : 1 ≤ n) :
    ∀ c, (natDigits n).head? = some c → c ≠ '0' := by
  induction n using Nat.strong_induction_on with
  | _ n ih =>
    rw [natDigits_unfold]
    by_cases h10 : n < 10
    · rw [if_pos h10]
      intro c hc
      simp at hc
      subst hc
      interval_cases n <;> simp_all <;> decide
    · rw [if_neg h10]
      intro c hc
      rw [List.head?_append_of_ne_nil _ (natDigits_ne_nil _)] at hc
      exact ih (n / 10) (Nat.div_lt_self (by omega) (by omega))
        (by omega) c hc

theorem digitsVal_replicate_zero (k : Nat) (l : Line) :
    digitsVal (List.replicate k '0' ++ l) = digitsVal l := by
  induction k with
  | zero => simp
  | succ k ih =>
    rw [List.replicate_succ, List.cons_append]
    unfold digitsVal at *
    simpa [digVal] using ih

theorem head_isDigit_ne_plus {l : Line} (h : ∀ c ∈ l, isDigitB c = true) :
    (l.head? == some '+') = false := by
  cases l with
  | nil => rfl
  | cons c t =>
    have := h c (by simp)
    simp [isDigitB] at this
    simp only [List.head?_cons, beq_eq_false_iff_ne, ne_eq, Option.some.injEq]
    intro hc
    subst hc
    simp at this

theorem parseU32_all_digits {l : Line} (h : ∀ c ∈ l, isDigitB c = true)
    (hne : l ≠ []) (hv : digitsVal l < 2 ^ 32) : parseU32 l = some (digitsVal l) := by
  unfold parseU32
  rw [head_isDigit_ne_plus h]
  simp only [Bool.false_eq_true, if_false]
  rw [if_pos]
  refine ⟨hne, ?_, hv⟩
  exact List.all_eq_true.2 h

theorem pad4_all_digit (n : Nat) : ∀ c ∈ pad4 n, isDigitB c = true := by
  intro c hc
  rcases List.mem_append.1 hc with h1 | h1
  · have := List.eq_of_mem_replicate h1
    subst this
    decide
  · exact natDigits_all_digit n c h1

theorem digitsVal_pad4 (n : Nat) : digitsVal (pad4 n) = n := by
  unfold pad4
  rw [digitsVal_replicate_zero, digitsVal_natDigits]

theorem pad4_ne_nil (n : Nat) : pad4 n ≠ [] := by
  unfold pad4
  intro h
  rcases List.append_eq_nil.1 h with ⟨_, h2⟩
  exact natDigits_ne_nil n h2

theorem parseU32_pad4 {n : Nat} (h : n < 2 ^ 32) : parseU32 (pad4 n) = some n := by
  rw [parseU32_all_digits (pad4_all_digit n) (pad4_ne_nil n)
    (by rw [digitsVal_pad4]; exact h), digitsVal_pad4]

theorem dropWhile_eq_self_of_all {p : Char → Bool} {l : Line}
    (h : ∀ c ∈ l, p c = false) : l.dropWhile p = l := by
  cases l with
  | nil => rfl
  | cons c t =>
    rw [List.dropWhile_cons, h c (by simp)]
    simp

theorem trimL_digits {l : Line} (h : ∀ c ∈ l, isDigitB c = true) : trimL l = l := by
  unfold trimL
  rw [dropWhile_eq_self_of_all (fun c hc => isDigitB_not_ws (h c hc)),
    dropWhile_eq_self_of_all (fun c hc => isDigitB_not_ws (h c (List.mem_reverse.1 hc))),
    List.reverse_reverse]

theorem trimL_ws_cons {c : Char} {l : Line} (h : isRustWs c = true) :
    trimL (c :: l) = trimL l := by
  unfold trimL
  rw [List.dropWhile_cons, h]
  simp

/-! ## Slug/Number codec: `domain.rs` -/

/-- Character loop of `domain::slugify`: lowercase, keep ASCII
alphanumerics, collapse whitespace, dash and underscore runs to a
single dash (other characters are dropped without resetting the
dash flag). -/
def slugCore : List Char → Bool → List Char
  | [], _ => []
  | c :: rest, lastDash =>
    if isAlnumB (toLowerAscii c) then toLowerAscii c :: slugCore rest false
    else if (isAsciiWs (toLowerAscii c) || toLowerAscii c == '-' ||
        toLowerAscii c == '_') && !lastDash then
      '-' :: slugCore rest true
    else slugCore rest lastDash

/-- The `while out.ends_with('-') { out.pop(); }` loop of `slugify`. -/
def dropTrailDash : List Char → List Char
  | [] => []
  | c :: t =>
    let r := dropTrailDash t
    if r = [] ∧ c = '-' then [] else c :: r

/-- `domain::slugify` on character lists: the character loop, then the
trailing-dash pops, then the leading-dash removals, then the `"adr"`
fallback for an empty result. -/
def slugify (s : List Char) : List Char :=
  if (dropTrailDash (slugCore s false)).dropWhile (fun c => c == '-') = [] then S "adr"
  else (dropTrailDash (slugCore s false)).dropWhile (fun c => c == '-')

/-- `domain::slugify`. -/
def slugifyStr (s : String) : String := String.mk (slugify s.data)

/-- Whether a character list contains two consecutive dashes. -/
def hasDD : List Char → Bool
  | a :: b :: t => (a == '-' && b == '-') || hasDD (b :: t)
  | _ => false

theorem isLowerAlnumB_of_alnum_toLower (c : Char)
    (h : isAlnumB (toLowerAscii c) = true) :
    isLowerAlnumB (toLowerAscii c) = true := by
  by_cases hu : 65 ≤ c.toNat ∧ c.toNat ≤ 90
  · have hv := toNat_toLowerAscii_upper c hu
    simp [isLowerAlnumB, hv]
    omega
  · rw [toLowerAscii_eq_self c hu] at h ⊢
    simp [isAlnumB] at h
    simp [isLowerAlnumB]
    omega

theorem isAlnumB_ne_dash {c : Char} (h : isAlnumB c = true) : (c == '-') = false := by
  simp only [beq_eq_false_iff_ne, ne_eq]
  intro hc
  subst hc
  revert h
  decide

theorem mem_slugCore {s : List Char} {b : Bool} :
    ∀ c ∈ slugCore s b, (isLowerAlnumB c || c == '-') = true := by
  induction s generalizing b with
  | nil => intro c hc; simp [slugCore] at hc
  | cons a t ih =>
    intro c hc
    rw [slugCore] at hc
    split at hc
    · rcases List.mem_cons.1 hc with h1 | h1
      · subst h1
        rename_i halnum
        rw [isLowerAlnumB_of_alnum_toLower a halnum]
        simp
      · exact ih c h1
    · split at hc
      · rcases List.mem_cons.1 hc with h1 | h1
        · subst h1; simp
        · exact ih c h1
      · exact ih c hc

theorem head_slugCore_true {s : List Char} :
    ((slugCore s true).head? == some '-') = false := by
  induction s with
  | nil => rfl
  | cons a t ih =>
    rw [slugCore]
    split
    · rename_i halnum
      simp only [List.head?_cons, beq_eq_false_iff_ne, ne_eq, Option.some.injEq]
      intro hc
      have := isAlnumB_ne_dash halnum
      simp [hc] at this
    · split
      · rename_i hcond
        simp at hcond
      · exact ih

theorem hasDD_cons_false {a : Char} {l : List Char} (h : hasDD (a :: l) = false) :
    hasDD l = false ∧ ∀ d, l.head? = some d → (a == '-' && d == '-') = false := by
  cases l with
  | nil => exact ⟨rfl, by intro d hd; simp at hd⟩
  | cons b t =>
    rw [hasDD] at h
    simp only [Bool.or_eq_false_iff] at h
    refine ⟨h.2, ?_⟩
    intro d hd
    simp at hd
    subst hd
    exact h.1

theorem hasDD_slugCore {s : List Char} {b : Bool} : hasDD (slugCore s b) = false := by
  induction s generalizing b with
  | nil => rfl
  | cons a t ih =>
    rw [slugCore]
    split
    · rename_i halnum
      cases hr : slugCore t false with
      | nil => rfl
      | cons d r' =>
        rw [hasDD]
        simp only [Bool.or_eq_false_iff]
        constructor
        · rw [isAlnumB_ne_dash halnum]
          simp
        · rw [← hr]; exact ih
    · split
      · cases hr : slugCore t true with
        | nil => rfl
        | cons d r' =>
          rw [hasDD]
          simp only [Bool.or_eq_false_iff]
          constructor
          · have h2 := @head_slugCore_true t
            rw [hr] at h2
            simp only [List.head?_cons, beq_eq_false_iff_ne, ne_eq,
              Option.some.injEq] at h2
            simp [h2]
          · rw [← hr]; exact ih
      · exact ih

theorem dropTrailDash_head {l : List Char} {d : Char}
    (h : (dropTrailDash l).head? = some d) : l.head? = some d := by
  cases l with
  | nil => simp [dropTrailDash] at h
  | cons c t =>
    rw [dropTrailDash] at h
    split at h
    · simp at h
    · simp_all

theorem dropTrailDash_sub {l : List Char} : ∀ c ∈ dropTrailDash l, c ∈ l := by
  induction l with
  | nil => intro c hc; simp [dropTrailDash] at hc
  | cons a t ih =>
    intro c hc
    rw [dropTrailDash] at hc
    split at hc
    · simp at hc
    · rcases List.mem_cons.1 hc with h1 | h1
      · subst h1; simp
      · exact List.mem_cons_of_mem _ (ih c h1)

theorem dropTrailDash_getLast {l : List Char} :
    ((dropTrailDash l).getLast? == some '-') = false := by
  induction l with
  | nil => rfl
  | cons a t ih =>
    rw [dropTrailDash]
    split
    · rfl
    · rename_i hcond
      cases hr : dropTrailDash t with
      | nil =>
        have ha : ¬a = '-' := by
          intro h
          exact hcond ⟨hr, h⟩
        simp [List.getLast?, ha]
      | cons d r' =>
        rw [List.getLast?_cons_cons]
        rw [hr] at ih
        exact ih

theorem dropTrailDash_hasDD {l : List Char} (h : hasDD l = false) :
    hasDD (dropTrailDash l) = false := by
  induction l with
  | nil => rfl
  | cons a t ih =>
    rw [dropTrailDash]
    split
    · rfl
    · have hparts := hasDD_cons_false h
      cases hr : dropTrailDash t with
      | nil => rfl
      | cons d r' =>
        rw [hasDD]
        simp only [Bool.or_eq_false_iff]
        constructor
        · have hd : t.head? = some d :=
            dropTrailDash_head (by rw [hr]; rfl)
          exact hparts.2 d hd
        · rw [← hr]
          exact ih hparts.1

theorem dropTrailDash_eq_self {l : List Char}
    (h : (l.getLast? == some '-') = false) : dropTrailDash l = l := by
  induction l with
  | nil => rfl
  | cons a t ih =>
    rw [dropTrailDash]
    cases ht : t with
    | nil =>
      subst ht
      simp only [List.getLast?_singleton, beq_eq_false_iff_ne, ne_eq,
        Option.some.injEq] at h
      rw [if_neg]
      · rfl
      · rintro ⟨-, h2⟩
        exact h h2
    | cons b t' =>
      subst ht
      rw [List.getLast?_cons_cons] at h
      rw [ih h]
      simp

theorem dropWhileDash_head {l : List Char} :
    ((l.dropWhile (fun c => c == '-')).head? == some '-') = false := by
  induction l with
  | nil => rfl
  | cons a t ih =>
    rw [List.dropWhile_cons]
    split
    · exact ih
    · rename_i hcond
      simp only [Bool.not_eq_true] at hcond
      simp only [List.head?_cons]
      simp only [beq_eq_false_iff_ne, ne_eq, Option.some.injEq] at hcond ⊢
      exact hcond

theorem dropWhileDash_getLast {l : List Char}
    (h : l.dropWhile (fun c => c == '-') ≠ []) :
    (l.dropWhile (fun c => c == '-')).getLast? = l.getLast? := by
  induction l with
  | nil => simp at h
  | cons a t ih =>
    rw [List.dropWhile_cons]
    split
    · rename_i hcond
      rw [List.dropWhile_cons, if_pos hcond] at h
      have ht : t ≠ [] := by
        intro he
        subst he
        simp at h
      rw [ih h]
      cases ht2 : t with
      | nil => exact absurd ht2 ht
      | cons b t' => rw [List.getLast?_cons_cons]
    · rfl

theorem hasDD_dropWhileDash {l : List Char} (h : hasDD l = false) :
    hasDD (l.dropWhile (fun c => c == '-')) = false := by
  induction l with
  | nil => rfl
  | cons a t ih =>
    rw [List.dropWhile_cons]
    split
    · exact ih (hasDD_cons_false h).1
    · exact h

theorem dropWhileDash_sub {l : List Char} :
    ∀ c ∈ l.dropWhile (fun c => c == '-'), c ∈ l :=
  fun c hc => (List.dropWhile_sublist _).mem hc

/-- The canonical-form property of slug output: nonempty after the
fallback, only lowercase alphanumerics and dashes, no dash at either
end, no dash run. -/
def slugCanon (l : List Char) : Prop :=
  (∀ c ∈ l, (isLowerAlnumB c || c == '-') = true) ∧
  hasDD l = false ∧
  (l.head? == some '-') = false ∧
  (l.getLast? == some '-') = false ∧
  l ≠ []

theorem slugify_canon (s : List Char) : slugCanon (slugify s) := by
  unfold slugify
  split
  · refine ⟨?_, by decide, by decide, by decide, by decide⟩
    intro c hc
    fin_cases hc <;> decide
  · rename_i hne
    refine ⟨?_, ?_, ?_, ?_, hne⟩
    · intro c hc
      exact mem_slugCore c (dropTrailDash_sub c (dropWhileDash_sub c hc))
    · exact hasDD_dropWhileDash (dropTrailDash_hasDD hasDD_slugCore)
    · exact dropWhileDash_head
    · rw [dropWhileDash_getLast hne]
      exact dropTrailDash_getLast

theorem slugCore_canon_id {l : List Char} {b : Bool}
    (hmem : ∀ c ∈ l, (isLowerAlnumB c || c == '-') = true)
    (hdd : hasDD l = false)
    (hb : b = true → (l.head? == some '-') = false) :
    slugCore l b = l := by
  induction l generalizing b with
  | nil => rfl
  | cons a t ih =>
    have ha := hmem a (List.mem_cons_self a t)
    have hparts := hasDD_cons_false hdd
    by_cases hla : isLowerAlnumB a = true
    · have hrange : ¬(65 ≤ a.toNat ∧ a.toNat ≤ 90) := by
        simp [isLowerAlnumB] at hla
        omega
      have hfix : toLowerAscii a = a := toLowerAscii_eq_self a hrange
      have halnum : isAlnumB a = true := by
        simp [isLowerAlnumB] at hla
        simp [isAlnumB]
        omega
      rw [slugCore, hfix, if_pos halnum]
      congr 1
      exact ih (fun c hc => hmem c (List.mem_cons_of_mem _ hc)) hparts.1
        (by intro h; exact absurd h (by simp))
    · have had : a = '-' := by
        rw [Bool.or_eq_true] at ha
        rcases ha with h1 | h1
        · exact absurd h1 hla
        · exact eq_of_beq h1
      subst had
      have hb' : b = false := by
        cases b with
        | false => rfl
        | true =>
          have := hb rfl
          simp at this
      subst hb'
      rw [slugCore]
      rw [if_neg (by decide), if_pos (by decide)]
      congr 1
      refine ih (fun c hc => hmem c (List.mem_cons_of_mem _ hc)) hparts.1 ?_
      intro _h
      cases ht : t.head? with
      | none => simp [ht]
      | some d =>
        have := hparts.2 d ht
        simp at this
        simp [ht, this]

theorem dropWhile_eq_self_of_head {p : Char → Bool} {l : Line}
    (h : ∀ c, l.head? = some c → p c = false) : l.dropWhile p = l := by
  cases l with
  | nil => rfl
  | cons a t =>
    rw [List.dropWhile_cons, h a rfl]
    simp

theorem slugify_canon_id {l : List Char} (h : slugCanon l) : slugify l = l := by
  obtain ⟨hmem, hdd, hhead, hlast, hne⟩ := h
  have h1 : slugCore l false = l :=
    slugCore_canon_id hmem hdd (by intro hx; simp at hx)
  have h2 : l.dropWhile (fun c => c == '-') = l := by
    refine dropWhile_eq_self_of_head ?_
    intro c hc
    rw [hc] at hhead
    simpa using hhead
  unfold slugify
  rw [h1, dropTrailDash_eq_self hlast, h2, if_neg hne]

/-- C10: for every input string, `slugify` returns a non-empty result
(falling back to `"adr"`) consisting only of lowercase ASCII
alphanumerics and single hyphens, with no leading hyphen, no trailing
hyphen, and no two consecutive hyphens, and `slugify` is idempotent. -/
theorem c10_slugify_shape_and_idempotent (s : String) :
    (slugifyStr s).data.isEmpty = false ∧
    (slugifyStr s).data.all (fun c => isLowerAlnumB c || c == '-') = true ∧
    ((slugifyStr s).data.head? == some '-') = false ∧
    ((slugifyStr s).data.getLast? == some '-') = false ∧
    hasDD (slugifyStr s).data = false ∧
    slugifyStr (slugifyStr s) = slugifyStr s := by
  obtain ⟨hmem, hdd, hhead, hlast, hne⟩ := slugify_canon s.data
  have hdata : (slugifyStr s).data = slugify s.data := rfl
  refine ⟨?_, ?_, ?_, ?_, ?_, ?_⟩
  · rw [hdata]
    cases hl : slugify s.data with
    | nil => exact absurd hl hne
    | cons a t => rfl
  · rw [hdata]
    exact List.all_eq_true.2 hmem
  · rw [hdata]
    exact hhead
  · rw [hdata]
    exact hlast
  · rw [hdata]
    exact hdd
  · show String.mk (slugify (slugify s.data)) = String.mk (slugify s.data)
    rw [slugify_canon_id ⟨hmem, hdd, hhead, hlast, hne⟩]

/-! ## Data model and configuration -/

/-- The canonical in-memory record: `domain::AdrMeta`.  `path` holds the
filename within the ADR directory. -/
structure AdrMeta where
  number : Nat
  title : Line
  status : Line
  date : Line
  supersedes : Option Nat
  superseded_by : Option Nat
  path : Line
  deriving DecidableEq

/-- Configuration fields the engine reads.  `index_name` and `template`
mirror `config::Config`; `template` holds the template file content
when one is configured (reading it is repository I/O).

Modelled from the spec: the `format` (storage extension, default `md`)
and `front_matter` (default false) fields used by `actions.rs` are not
declared by the `Config` in `src/config.rs`; they are modelled from the
spec's `storage_extension` and `use_structured_front_matter`
configuration entries. -/
structure Cfg where
  format : Line
  front_matter : Bool
  index_name : Line
  template : Option Content
  deriving DecidableEq

/-! ## Document codec: `repository/fs.rs` parsing -/

/-- Last index of a character satisfying `p` (Rust `str::rfind`). -/
def lastIdxP (p : Char → Bool) : Line → Option Nat
  | [] => none
  | a :: t =>
    match lastIdxP p t with
    | some i => some (i + 1)
    | none => if p a then some 0 else none

/-- First index at which `pat` occurs as a contiguous substring
(Rust `str::find` with a string pattern). -/
def findSubIdx (pat : Line) : Line → Option Nat
  | [] => if sw pat [] then some 0 else none
  | c :: t => if sw pat (c :: t) then some 0 else (findSubIdx pat t).map (· + 1)

/-- `number_from_filename`: the regex `^(\d{4})-` capture parsed as u32. -/
def filenameNumber (f : Line) : Option Nat :=
  match f with
  | a :: b :: c :: d :: e :: _ =>
    if isDigitB a && isDigitB b && isDigitB c && isDigitB d && e == '-' then
      some (digitsVal [a, b, c, d])
    else none
  | _ => none

/-- Rust `Path::file_stem` for the managed names: the portion before the
final dot, or the whole name when it has none. -/
def fileStem (f : Line) : Line :=
  match lastIdxP (fun c => c == '.') f with
  | some i => f.take i
  | none => f

def isAsciiAlphaB (c : Char) : Bool :=
  (65 ≤ c.toNat && c.toNat ≤ 90) || (97 ≤ c.toNat && c.toNat ≤ 122)

/-- Rust `char::to_ascii_uppercase`. -/
def toUpperAscii (c : Char) : Char :=
  if 97 ≤ c.toNat ∧ c.toNat ≤ 122 then Char.ofNat (c.toNat - 32) else c

/-- Split a character list on dashes (Rust `str::split('-')`). -/
def splitDash : Line → List Line
  | [] => [[]]
  | c :: t =>
    if c == '-' then [] :: splitDash t
    else
      match splitDash t with
      | h :: r => (c :: h) :: r
      | [] => [[c]]

/-- Capitalize the first character of a word (ASCII). -/
def capAscii : Line → Line
  | [] => []
  | c :: t => toUpperAscii c :: t

/-- `title_from_filename`: de-slugify the stem after the first dash,
title-casing each dash-separated word. -/
def titleFromFilename (f : Line) : Option Line :=
  let stem := fileStem f
  match List.findIdx? (fun c => c == '-') stem with
  | some i =>
    let slug := stem.drop (i + 1)
    if slug = [] then none
    else some (List.intercalate [' ']
      (((splitDash slug).filter (fun w => ¬w = [])).map capAscii))
  | none => none

/-- The first-line heading probe of `parse_adr_file`: a line containing
`": "` yields a title, and a trailing space-separated number before the
colon yields the record number. -/
def headingUpdate (st : AdrMeta) (l : Line) : AdrMeta :=
  match findSubIdx (S ": ") l with
  | some idx =>
    let head := l.take idx
    let st :=
      match lastIdxP (fun c => c == ' ') head with
      | some k =>
        match parseU32 (head.drop (k + 1)) with
        | some n => { st with number := n }
        | none => st
      | none => st
    { st with title := trimL (l.drop (idx + 2)) }
  | none => st

/-- One line of the `parse_adr_file` scan (line index paired with the
line).  Each recognized field prefix overwrites the corresponding
field; `Supersedes`/`Superseded-by` only when the value parses as u32. -/
def parseStep (st : AdrMeta) (il : Nat × Line) : AdrMeta :=
  let st := if il.1 == 0 then headingUpdate st il.2 else st
  let st :=
    match stripPfx (S "Title:") il.2 with
    | some r => { st with title := trimL r }
    | none => st
  let st :=
    match stripPfx (S "Date:") il.2 with
    | some r => { st with date := trimL r }
    | none => st
  let st :=
    match stripPfx (S "Status:") il.2 with
    | some r => { st with status := trimL r }
    | none => st
  let st :=
    match stripPfx (S "Supersedes:") il.2 with
    | some r =>
      match parseU32 (trimL r) with
      | some n => { st with supersedes := some n }
      | none => st
    | none => st
  match stripPfx (S "Superseded-by:") il.2 with
  | some r =>
    match parseU32 (trimL r) with
    | some n => { st with superseded_by := some n }
    | none => st
  | none => st

/-- `FsAdrRepository::parse_adr_file`: scan the first 200 lines, with
number falling back to the filename prefix, status defaulting to
`Accepted`, title falling back to the de-slugified filename (then
`Untitled`), and date falling back to today. -/
def parseAdrFile (today fname : Line) (content : Content) : AdrMeta :=
  let st0 : AdrMeta :=
    { number := (filenameNumber fname).getD 0
      title := []
      status := S "Accepted"
      date := []
      supersedes := none
      superseded_by := none
      path := fname }
  let st := ((content.take 200).enum).foldl parseStep st0
  let st :=
    if st.title = [] then
      { st with title := (titleFromFilename fname).getD (S "Untitled") }
    else st
  if st.date = [] then { st with date := today } else st

/-! ## Front-matter split and body extraction -/

/-- The `strip_prefix("---\n")` / `find("\n---\n")` split used across
`actions.rs`: succeeds when the first line is `---` and a later line
(from the third line on) is exactly `---`.  Returns the front-matter
block lines and the body lines after the closing delimiter. -/
def splitFrontMatter (c : Content) : Option (Content × Content) :=
  match c with
  | l0 :: rest =>
    if l0 = S "---" then
      match List.findIdx? (fun l => l == S "---") (rest.drop 1) with
      | some k => some (rest.take (k + 1), rest.drop (k + 2))
      | none => none
    else none
  | [] => none

/-- A line recognized as managed metadata by `body_after_meta`. -/
def isMetaLine (l : Line) : Bool :=
  sw (S "Title:") l || sw (S "Date:") l || sw (S "Status:") l ||
  sw (S "Supersedes:") l || sw (S "Superseded-by:") l

/-- The scanning loop of `body_after_meta`: skip the contiguous run of
metadata lines, consume one blank line and stop, or stop at the first
other line. -/
def skipMetaLoop : Content → Content
  | [] => []
  | l :: rest =>
    if isMetaLine l then skipMetaLoop rest
    else if (trimL l).isEmpty then rest
    else l :: rest

/-- Heading skip of `body_after_meta`: drop a leading `# ADR ` line and
one following blank line. -/
def stripHeadBlank (c : Content) : Content :=
  match c with
  | l :: rest =>
    if sw (S "# ADR ") l then
      match rest with
      | r :: rest2 => if (trimL r).isEmpty then rest2 else rest
      | [] => []
    else c
  | [] => []

/-- The `join`/`is_empty` normalization at the end of `body_after_meta`:
a tail whose joined text is empty renders as no text at all. -/
def tailNorm (b : Content) : Content := if b = [] ∨ b = [[]] then [] else b

/-- `reformat::body_after_meta`: strip closed front matter, the heading
line plus one blank, then the leading metadata block. -/
def bodyAfterMeta (c : Content) : Content :=
  let rest :=
    match splitFrontMatter c with
    | some (_, body) => body
    | none => c
  tailNorm (skipMetaLoop (stripHeadBlank rest))

/-! ## Rendering: `yaml_util.rs` and the reformat renderers -/

/-- `yaml_util::escape_yaml`: quote when the value contains a colon
(unless it is a drive-letter path), a double or single quote, or starts
with a digit; escape embedded double quotes with a backslash. -/
def escapeYaml (l : Line) : Line :=
  let isWinDrive :=
    match l with
    | a :: b :: c :: _ => isAsciiAlphaB a && b == ':' && (c == '\\' || c == '/')
    | _ => false
  let needsQuotes :=
    (l.any (fun c => c == ':') && !isWinDrive) ||
    l.any (fun c => c == '"') ||
    l.any (fun c => c.toNat == 39) ||
    (match l.head? with
     | some c => isDigitB c
     | none => false)
  if needsQuotes then
    '"' :: (l.flatMap (fun c => if c == '"' then ['\\', '"'] else [c])) ++ ['"']
  else l

/-- The plain-representation renderer of `actions::reformat`: heading,
blank, `Date`, `Status`, optional `Superseded-by`, optional
`Supersedes` (as a link when the target number has a filename in the
collection map `m`), blank, then the body tail. -/
def renderPlain (m : Nat → Option Line) (a : AdrMeta) (tb : Content) : Content :=
  [S "# ADR " ++ pad4 a.number ++ S ": " ++ a.title, []] ++
  [S "Date: " ++ a.date, S "Status: " ++ a.status] ++
  (match a.superseded_by with
   | some n => [S "Superseded-by: " ++ pad4 n]
   | none => []) ++
  (match a.supersedes with
   | some n =>
     match m n with
     | some f => [S "Supersedes: [" ++ pad4 n ++ S "](" ++ f ++ S ")"]
     | none => [S "Supersedes: " ++ pad4 n]
   | none => []) ++
  [[]] ++ tb

/-- The front-matter renderer of `actions::reformat`. -/
def renderFm (m : Nat → Option Line) (a : AdrMeta) (tb : Content) : Content :=
  [S "---", S "title: " ++ escapeYaml a.title, S "---", []] ++
  [S "Date: " ++ a.date, S "Status: " ++ a.status] ++
  (match a.superseded_by with
   | some n => [S "Superseded-by: " ++ pad4 n]
   | none => []) ++
  (match a.supersedes with
   | some n =>
     match m n with
     | some f => [S "Supersedes: [" ++ pad4 n ++ S "](" ++ f ++ S ")"]
     | none => [S "Supersedes: " ++ pad4 n]
   | none => []) ++
  [[]] ++ tb

/-- The per-document content/path transformation of `actions::reformat`:
parse the target, extract the body tail, re-render under the current
configuration, and compute the new filename
`{number:04}-{slug(title)}.{extension}`.  `m` is the number-to-filename
map built from the freshly listed collection. -/
def reformatDoc (cfg : Cfg) (m : Nat → Option Line) (today fname : Line)
    (content : Content) : Line × Content :=
  let a := parseAdrFile today fname content
  let tb := bodyAfterMeta content
  let newContent := if cfg.front_matter then renderFm m a tb else renderPlain m a tb
  (pad4 a.number ++ S "-" ++ slugify a.title ++ S "." ++ cfg.format, newContent)

/-! ## Claim C2: reformat idempotence -/

/-- Collection map for the C2 counterexample: record 1 exists with
filename `0001-one.md`. -/
def c2Map : Nat → Option Line := fun n => if n = 1 then some (S "0001-one.md") else none

/-- C2 counterexample document: a plain record whose `Supersedes` line
holds a bare number that resolves in the collection. -/
def c2Doc : Content :=
  [S "# ADR 0002: Two", [], S "Date: 2024-01-01", S "Status: Proposed",
   S "Supersedes: 0001", [], S "Body"]

def c2Cfg : Cfg := { format := S "md", front_matter := false, index_name := S "index.md", template := none }

def c2Once : Line × Content :=
  reformatDoc c2Cfg c2Map (S "2024-02-02") (S "0002-two.md") c2Doc

def c2Twice : Line × Content :=
  reformatDoc c2Cfg c2Map (S "2024-02-02") c2Once.1 c2Once.2

/-- C2 counterexample: reformatting `0002-two.md` once upgrades the bare
`Supersedes: 0001` to a link, and reformatting the result again drops
the `Supersedes` line entirely (the parser cannot read the link form
back), so the second output is not byte-identical to the first. -/
theorem c2_reformat_twice_differs :
    (c2Twice.2 == c2Once.2) = false ∧
    c2Once.2 =
      [S "# ADR 0002: Two", [], S "Date: 2024-01-01", S "Status: Proposed",
       S "Supersedes: [0001](0001-one.md)", [], S "Body"] ∧
    c2Twice.2 =
      [S "# ADR 0002: Two", [], S "Date: 2024-01-01", S "Status: Proposed",
       [], S "Body"] := by
  refine ⟨by decide, by decide, by decide⟩

/-! ## Round-trip lemmas: parsing a rendered plain document -/

theorem sw_cons_false {p c : Char} {ps cs : Line} (h : (p == c) = false) :
    sw (p :: ps) (c :: cs) = false := by
  rw [sw, h, Bool.false_and]

theorem findSubIdx_colon_space (x t : Line) (h : ∀ c ∈ x, ¬c = ':') :
    findSubIdx (S ": ") (x ++ (S ": " ++ t)) = some x.length := by
  induction x with
  | nil => rfl
  | cons c x' ih =>
    have hc : (':' == c) = false := by
      simp only [beq_eq_false_iff_ne, ne_eq]
      intro he
      exact h c (List.mem_cons_self c x') he.symm
    rw [List.cons_append, findSubIdx]
    have hsw : sw (S ": ") (c :: (x' ++ (S ": " ++ t))) = false := sw_cons_false hc
    rw [hsw]
    simp only [Bool.false_eq_true, if_false]
    rw [ih (fun d hd => h d (List.mem_cons_of_mem _ hd))]
    rfl

theorem lastIdxP_none {p : Char → Bool} {l : Line} (h : ∀ c ∈ l, p c = false) :
    lastIdxP p l = none := by
  induction l with
  | nil => rfl
  | cons a t ih =>
    rw [lastIdxP, ih (fun c hc => h c (List.mem_cons_of_mem _ hc)),
      h a (List.mem_cons_self a t)]
    rfl

theorem lastIdxP_append_right_none {p : Char → Bool} {x y : Line}
    (hy : ∀ c ∈ y, p c = false) : lastIdxP p (x ++ y) = lastIdxP p x := by
  induction x with
  | nil =>
    rw [List.nil_append, lastIdxP_none hy]
    rfl
  | cons a x' ih =>
    rw [List.cons_append, lastIdxP, lastIdxP, ih]

theorem isDigitB_ne_space {c : Char} (h : isDigitB c = true) : (c == ' ') = false := by
  simp [isDigitB] at h
  simp only [beq_eq_false_iff_ne, ne_eq]
  intro he
  subst he
  simp at h

theorem isDigitB_ne_colon {c : Char} (h : isDigitB c = true) : ¬c = ':' := by
  simp [isDigitB] at h
  intro he
  subst he
  simp at h

theorem drop_append_plus (x r : Line) (k : Nat) :
    (x ++ r).drop (x.length + k) = r.drop k := by
  rw [← List.drop_drop, List.drop_left]

theorem trimL_space_of_trimmed {s : Line} (h : trimL s = s) : trimL (' ' :: s) = s := by
  rw [trimL_ws_cons (by decide), h]

theorem trimL_pad4 (n : Nat) : trimL (pad4 n) = pad4 n :=
  trimL_digits (pad4_all_digit n)

/-- Parsing the rendered heading recovers the number and trimmed title. -/
theorem headingUpdate_render (st : AdrMeta) (n : Nat) (t : Line) (hn : n < 2 ^ 32) :
    headingUpdate st (S "# ADR " ++ (pad4 n ++ (S ": " ++ t))) =
      { st with number := n, title := trimL t } := by
  have hx : ∀ c ∈ S "# ADR " ++ pad4 n, ¬c = ':' := by
    intro c hc
    rcases List.mem_append.1 hc with h1 | h1
    · fin_cases h1 <;> decide
    · exact isDigitB_ne_colon (pad4_all_digit n c h1)
  have hassoc : S "# ADR " ++ (pad4 n ++ (S ": " ++ t)) =
      (S "# ADR " ++ pad4 n) ++ (S ": " ++ t) := by
    rw [List.append_assoc]
  rw [headingUpdate, hassoc, findSubIdx_colon_space _ t hx]
  dsimp only
  rw [List.take_left]
  have hsp : lastIdxP (fun c => c == ' ') (S "# ADR " ++ pad4 n) = some 5 := by
    rw [lastIdxP_append_right_none
      (fun c hc => isDigitB_ne_space (pad4_all_digit n c hc))]
    rfl
  rw [hsp]
  dsimp only
  have hdrop : (S "# ADR " ++ pad4 n).drop (5 + 1) = pad4 n := by
    have h6 : (5 + 1) = (S "# ADR ").length := rfl
    rw [h6, List.drop_left]
  rw [hdrop, parseU32_pad4 hn]
  have hdrop2 : ((S "# ADR " ++ pad4 n) ++ (S ": " ++ t)).drop
      ((S "# ADR " ++ pad4 n).length + 2) = t := by
    rw [drop_append_plus]
    rfl
  rw [hdrop2]

theorem parseStep_zero_heading (st : AdrMeta) (x : Line) :
    parseStep st (0, S "# ADR " ++ x) = headingUpdate st (S "# ADR " ++ x) := rfl

theorem parseStep_blank (st : AdrMeta) (k : Nat) (hk : (k == 0) = false) :
    parseStep st (k, []) = st := by
  rw [parseStep]
  simp only [hk, Bool.false_eq_true, if_false]
  rfl

theorem parseStep_date (st : AdrMeta) (k : Nat) (hk : (k == 0) = false) (d : Line) :
    parseStep st (k, S "Date: " ++ d) = { st with date := trimL (' ' :: d) } := by
  rw [parseStep]
  simp only [hk, Bool.false_eq_true, if_false]
  rfl

theorem parseStep_status (st : AdrMeta) (k : Nat) (hk : (k == 0) = false) (s : Line) :
    parseStep st (k, S "Status: " ++ s) = { st with status := trimL (' ' :: s) } := by
  rw [parseStep]
  simp only [hk, Bool.false_eq_true, if_false]
  rfl

theorem parseStep_sb (st : AdrMeta) (k : Nat) (hk : (k == 0) = false) (x : Line) :
    parseStep st (k, S "Superseded-by: " ++ x) =
      match parseU32 (trimL (' ' :: x)) with
      | some n => { st with superseded_by := some n }
      | none => st := by
  rw [parseStep]
  simp only [hk, Bool.false_eq_true, if_false]
  rfl

theorem parseStep_sup (st : AdrMeta) (k : Nat) (hk : (k == 0) = false) (x : Line) :
    parseStep st (k, S "Supersedes: " ++ x) =
      match parseU32 (trimL (' ' :: x)) with
      | some n => { st with supersedes := some n }
      | none => st := by
  rw [parseStep]
  simp only [hk, Bool.false_eq_true, if_false]
  rfl

theorem parseStep_inert (st : AdrMeta) (k : Nat) (l : Line)
    (hk : (k == 0) = false) (hm : isMetaLine l = false) :
    parseStep st (k, l) = st := by
  rw [isMetaLine] at hm
  simp only [Bool.or_eq_false_iff] at hm
  obtain ⟨⟨⟨⟨h1, h2⟩, h3⟩, h4⟩, h5⟩ := hm
  rw [parseStep]
  simp only [hk, Bool.false_eq_true, if_false, stripPfx, h1, h2, h3, h4, h5]

theorem foldl_parseStep_enumFrom (st : AdrMeta) (k : Nat) (hk : 1 ≤ k)
    (ls : Content) (h : ∀ l ∈ ls, isMetaLine l = false) :
    (List.enumFrom k ls).foldl parseStep st = st := by
  induction ls generalizing st k with
  | nil => rfl
  | cons l t ih =>
    rw [List.enumFrom_cons, List.foldl_cons,
      parseStep_inert st k l (by simp; omega) (h l (List.mem_cons_self l t))]
    exact ih st (k + 1) (by omega) (fun x hx => h x (List.mem_cons_of_mem _ hx))

theorem parse_scan_split (st : AdrMeta) (hdr rest : Content) (hlen : hdr.length ≤ 200) :
    (((hdr ++ rest).take 200).enum).foldl parseStep st =
      (List.enumFrom hdr.length (rest.take (200 - hdr.length))).foldl parseStep
        (hdr.enum.foldl parseStep st) := by
  rw [List.take_append_eq_append_take, List.take_of_length_le hlen,
    List.enum_append, List.foldl_append]

set_option maxHeartbeats 3200000 in
/-- Parsing a freshly rendered plain document recovers exactly the
fields it was rendered from (under the stated round-trip conditions). -/
theorem parse_renderPlain (today fname : Line) (m : Nat → Option Line)
    (a : AdrMeta) (tb : Content)
    (hn : a.number < 2 ^ 32)
    (ht : trimL a.title = a.title) (htne : a.title ≠ [])
    (hst : trimL a.status = a.status)
    (hd : trimL a.date = a.date) (hdne : a.date ≠ [])
    (hsb32 : ∀ k, a.superseded_by = some k → k < 2 ^ 32)
    (hsup32 : ∀ k, a.supersedes = some k → m k = none ∧ k < 2 ^ 32)
    (htb : ∀ l ∈ tb, isMetaLine l = false) :
    parseAdrFile today fname (renderPlain m a tb) = { a with path := fname } := by
  obtain ⟨num, tit, stat, dat, sup, sb, pth⟩ := a
  dsimp only at hn ht htne hst hd hdne hsb32 hsup32 ⊢
  have hinert : ∀ k₀, ∀ l ∈ (([] : Line) :: tb).take k₀, isMetaLine l = false := by
    intro k₀ l hl
    rcases List.mem_cons.1 (List.mem_of_mem_take hl) with h | h
    · subst h
      rfl
    · exact htb l h
  rcases sb with _ | ksb <;> rcases sup with _ | ksup
  · have hre : renderPlain m ⟨num, tit, stat, dat, none, none, pth⟩ tb =
        [S "# ADR " ++ (pad4 num ++ (S ": " ++ tit)), ([] : Line),
         S "Date: " ++ dat, S "Status: " ++ stat] ++ ([] :: tb) := by
      simp [renderPlain]
    rw [parseAdrFile, hre, parse_scan_split _ _ _ (by simp),
      foldl_parseStep_enumFrom _ _ (by simp) _ (hinert _)]
    have henum : ([S "# ADR " ++ (pad4 num ++ (S ": " ++ tit)), ([] : Line),
        S "Date: " ++ dat, S "Status: " ++ stat] : Content).enum =
        [(0, S "# ADR " ++ (pad4 num ++ (S ": " ++ tit))), (1, ([] : Line)),
         (2, S "Date: " ++ dat), (3, S "Status: " ++ stat)] := rfl
    rw [henum]
    simp only [List.foldl_cons, List.foldl_nil]
    rw [parseStep_zero_heading, headingUpdate_render _ _ _ hn,
      parseStep_blank _ 1 (by decide),
      parseStep_date _ 2 (by decide),
      parseStep_status _ 3 (by decide),
      trimL_space_of_trimmed hd, trimL_space_of_trimmed hst, ht]
    dsimp only
    rw [if_neg htne, if_neg hdne]
  · have hm := hsup32 ksup rfl
    have hre : renderPlain m ⟨num, tit, stat, dat, some ksup, none, pth⟩ tb =
        [S "# ADR " ++ (pad4 num ++ (S ": " ++ tit)), ([] : Line),
         S "Date: " ++ dat, S "Status: " ++ stat,
         S "Supersedes: " ++ pad4 ksup] ++ ([] :: tb) := by
      simp [renderPlain, hm.1]
    rw [parseAdrFile, hre, parse_scan_split _ _ _ (by simp),
      foldl_parseStep_enumFrom _ _ (by simp) _ (hinert _)]
    have henum : ([S "# ADR " ++ (pad4 num ++ (S ": " ++ tit)), ([] : Line),
        S "Date: " ++ dat, S "Status: " ++ stat,
        S "Supersedes: " ++ pad4 ksup] : Content).enum =
        [(0, S "# ADR " ++ (pad4 num ++ (S ": " ++ tit))), (1, ([] : Line)),
         (2, S "Date: " ++ dat), (3, S "Status: " ++ stat),
         (4, S "Supersedes: " ++ pad4 ksup)] := rfl
    rw [henum]
    simp only [List.foldl_cons, List.foldl_nil]
    rw [parseStep_zero_heading, headingUpdate_render _ _ _ hn,
      parseStep_blank _ 1 (by decide),
      parseStep_date _ 2 (by decide),
      parseStep_status _ 3 (by decide),
      parseStep_sup _ 4 (by decide),
      trimL_space_of_trimmed hd, trimL_space_of_trimmed hst, ht,
      trimL_space_of_trimmed (trimL_pad4 ksup), parseU32_pad4 hm.2]
    dsimp only
    rw [if_neg htne, if_neg hdne]
  · have hre : renderPlain m ⟨num, tit, stat, dat, none, some ksb, pth⟩ tb =
        [S "# ADR " ++ (pad4 num ++ (S ": " ++ tit)), ([] : Line),
         S "Date: " ++ dat, S "Status: " ++ stat,
         S "Superseded-by: " ++ pad4 ksb] ++ ([] :: tb) := by
      simp [renderPlain]
    rw [parseAdrFile, hre, parse_scan_split _ _ _ (by simp),
      foldl_parseStep_enumFrom _ _ (by simp) _ (hinert _)]
    have henum : ([S "# ADR " ++ (pad4 num ++ (S ": " ++ tit)), ([] : Line),
        S "Date: " ++ dat, S "Status: " ++ stat,
        S "Superseded-by: " ++ pad4 ksb] : Content).enum =
        [(0, S "# ADR " ++ (pad4 num ++ (S ": " ++ tit))), (1, ([] : Line)),
         (2, S "Date: " ++ dat), (3, S "Status: " ++ stat),
         (4, S "Superseded-by: " ++ pad4 ksb)] := rfl
    rw [henum]
    simp only [List.foldl_cons, List.foldl_nil]
    rw [parseStep_zero_heading, headingUpdate_render _ _ _ hn,
      parseStep_blank _ 1 (by decide),
      parseStep_date _ 2 (by decide),
      parseStep_status _ 3 (by decide),
      parseStep_sb _ 4 (by decide),
      trimL_space_of_trimmed hd, trimL_space_of_trimmed hst, ht,
      trimL_space_of_trimmed (trimL_pad4 ksb), parseU32_pad4 (hsb32 ksb rfl)]
    dsimp only
    rw [if_neg htne, if_neg hdne]
  · have hm := hsup32 ksup rfl
    have hre : renderPlain m ⟨num, tit, stat, dat, some ksup, some ksb, pth⟩ tb =
        [S "# ADR " ++ (pad4 num ++ (S ": " ++ tit)), ([] : Line),
         S "Date: " ++ dat, S "Status: " ++ stat,
         S "Superseded-by: " ++ pad4 ksb,
         S "Supersedes: " ++ pad4 ksup] ++ ([] :: tb) := by
      simp [renderPlain, hm.1]
    rw [parseAdrFile, hre, parse_scan_split _ _ _ (by simp),
      foldl_parseStep_enumFrom _ _ (by simp) _ (hinert _)]
    have henum : ([S "# ADR " ++ (pad4 num ++ (S ": " ++ tit)), ([] : Line),
        S "Date: " ++ dat, S "Status: " ++ stat,
        S "Superseded-by: " ++ pad4 ksb,
        S "Supersedes: " ++ pad4 ksup] : Content).enum =
        [(0, S "# ADR " ++ (pad4 num ++ (S ": " ++ tit))), (1, ([] : Line)),
         (2, S "Date: " ++ dat), (3, S "Status: " ++ stat),
         (4, S "Superseded-by: " ++ pad4 ksb),
         (5, S "Supersedes: " ++ pad4 ksup)] := rfl
    rw [henum]
    simp only [List.foldl_cons, List.foldl_nil]
    rw [parseStep_zero_heading, headingUpdate_render _ _ _ hn,
      parseStep_blank _ 1 (by decide),
      parseStep_date _ 2 (by decide),
      parseStep_status _ 3 (by decide),
      parseStep_sb _ 4 (by decide),
      parseStep_sup _ 5 (by decide),
      trimL_space_of_trimmed hd, trimL_space_of_trimmed hst, ht,
      trimL_space_of_trimmed (trimL_pad4 ksb),
      trimL_space_of_trimmed (trimL_pad4 ksup),
      parseU32_pad4 (hsb32 ksb rfl), parseU32_pad4 hm.2]
    dsimp only
    rw [if_neg htne, if_neg hdne]

/-- Extracting the body of a freshly rendered plain document returns
exactly the (normalized) tail it was rendered with. -/
theorem bodyAfterMeta_renderPlain (m : Nat → Option Line) (a : AdrMeta) (tb : Content) :
    bodyAfterMeta (renderPlain m a tb) = tailNorm tb := by
  obtain ⟨num, tit, stat, dat, sup, sb, pth⟩ := a
  rcases sb with _ | ksb <;> rcases sup with _ | ksup
  · rfl
  · rcases hm : m ksup with _ | f <;>
      simp only [renderPlain, hm] <;> rfl
  · rfl
  · rcases hm : m ksup with _ | f <;>
      simp only [renderPlain, hm] <;> rfl

theorem tailNorm_idem (b : Content) : tailNorm (tailNorm b) = tailNorm b := by
  by_cases h : b = [] ∨ b = [[]]
  · have hb : tailNorm b = [] := by rw [tailNorm, if_pos h]
    rw [hb]
    rfl
  · have hb : tailNorm b = b := by rw [tailNorm, if_neg h]
    rw [hb]
    exact hb

theorem tailNorm_bodyAfterMeta (c : Content) :
    tailNorm (bodyAfterMeta c) = bodyAfterMeta c :=
  tailNorm_idem _

theorem isMetaLine_false_parts {l : Line} (h : isMetaLine l = false) :
    sw (S "Title:") l = false ∧ sw (S "Date:") l = false ∧
    sw (S "Status:") l = false ∧ sw (S "Supersedes:") l = false ∧
    sw (S "Superseded-by:") l = false := by
  rw [isMetaLine] at h
  simp only [Bool.or_eq_false_iff] at h
  exact ⟨h.1.1.1.1, h.1.1.1.2, h.1.1.2, h.1.2, h.2⟩

set_option maxHeartbeats 1600000 in
/-- Each managed metadata line occurs in a freshly rendered plain
document exactly as often as the corresponding field requires: `Date`
and `Status` once, `Superseded-by` and `Supersedes` once when set. -/
theorem counts_renderPlain (m : Nat → Option Line) (a : AdrMeta) (tb : Content)
    (hsup : ∀ k, a.supersedes = some k → m k = none)
    (htb : ∀ l ∈ tb, isMetaLine l = false) :
    List.countP (fun l => sw (S "Date:") l) (renderPlain m a tb) = 1 ∧
    List.countP (fun l => sw (S "Status:") l) (renderPlain m a tb) = 1 ∧
    List.countP (fun l => sw (S "Superseded-by:") l) (renderPlain m a tb) =
      (if a.superseded_by.isSome then 1 else 0) ∧
    List.countP (fun l => sw (S "Supersedes:") l) (renderPlain m a tb) =
      (if a.supersedes.isSome then 1 else 0) := by
  have hD : List.countP (fun l => sw (S "Date:") l) tb = 0 :=
    List.countP_eq_zero.2 (fun l hl => by
      rw [(isMetaLine_false_parts (htb l hl)).2.1]
      simp)
  have hS : List.countP (fun l => sw (S "Status:") l) tb = 0 :=
    List.countP_eq_zero.2 (fun l hl => by
      rw [(isMetaLine_false_parts (htb l hl)).2.2.1]
      simp)
  have hSup : List.countP (fun l => sw (S "Supersedes:") l) tb = 0 :=
    List.countP_eq_zero.2 (fun l hl => by
      rw [(isMetaLine_false_parts (htb l hl)).2.2.2.1]
      simp)
  have hSb : List.countP (fun l => sw (S "Superseded-by:") l) tb = 0 :=
    List.countP_eq_zero.2 (fun l hl => by
      rw [(isMetaLine_false_parts (htb l hl)).2.2.2.2]
      simp)
  obtain ⟨num, tit, stat, dat, sup, sb, pth⟩ := a
  dsimp only at hsup ⊢
  rcases sb with _ | ksb <;> rcases sup with _ | ksup
  · have hre : renderPlain m ⟨num, tit, stat, dat, none, none, pth⟩ tb =
        [S "# ADR " ++ (pad4 num ++ (S ": " ++ tit)), ([] : Line),
         S "Date: " ++ dat, S "Status: " ++ stat] ++ ([] :: tb) := by
      simp only [renderPlain, List.cons_append, List.nil_append, List.append_assoc,
        List.append_nil]
    rw [hre]
    refine ⟨?_, ?_, ?_, ?_⟩ <;>
      rw [List.countP_append] <;>
      rw [show ∀ x : Content, List.countP _ (([] : Line) :: x) = List.countP _ x
        from fun _ => rfl]
    · rw [hD]; rfl
    · rw [hS]; rfl
    · rw [hSb]; rfl
    · rw [hSup]; rfl
  · have hm := hsup ksup rfl
    have hre : renderPlain m ⟨num, tit, stat, dat, some ksup, none, pth⟩ tb =
        [S "# ADR " ++ (pad4 num ++ (S ": " ++ tit)), ([] : Line),
         S "Date: " ++ dat, S "Status: " ++ stat,
         S "Supersedes: " ++ pad4 ksup] ++ ([] :: tb) := by
      simp only [renderPlain, hm, List.cons_append, List.nil_append, List.append_assoc,
        List.append_nil]
    rw [hre]
    refine ⟨?_, ?_, ?_, ?_⟩ <;>
      rw [List.countP_append] <;>
      rw [show ∀ x : Content, List.countP _ (([] : Line) :: x) = List.countP _ x
        from fun _ => rfl]
    · rw [hD]; rfl
    · rw [hS]; rfl
    · rw [hSb]; rfl
    · rw [hSup]; rfl
  · have hre : renderPlain m ⟨num, tit, stat, dat, none, some ksb, pth⟩ tb =
        [S "# ADR " ++ (pad4 num ++ (S ": " ++ tit)), ([] : Line),
         S "Date: " ++ dat, S "Status: " ++ stat,
         S "Superseded-by: " ++ pad4 ksb] ++ ([] :: tb) := by
      simp only [renderPlain, List.cons_append, List.nil_append, List.append_assoc,
        List.append_nil]
    rw [hre]
    refine ⟨?_, ?_, ?_, ?_⟩ <;>
      rw [List.countP_append] <;>
      rw [show ∀ x : Content, List.countP _ (([] : Line) :: x) = List.countP _ x
        from fun _ => rfl]
    · rw [hD]; rfl
    · rw [hS]; rfl
    · rw [hSb]; rfl
    · rw [hSup]; rfl
  · have hm := hsup ksup rfl
    have hre : renderPlain m ⟨num, tit, stat, dat, some ksup, some ksb, pth⟩ tb =
        [S "# ADR " ++ (pad4 num ++ (S ": " ++ tit)), ([] : Line),
         S "Date: " ++ dat, S "Status: " ++ stat,
         S "Superseded-by: " ++ pad4 ksb,
         S "Supersedes: " ++ pad4 ksup] ++ ([] :: tb) := by
      simp only [renderPlain, hm, List.cons_append, List.nil_append, List.append_assoc,
        List.append_nil]
    rw [hre]
    refine ⟨?_, ?_, ?_, ?_⟩ <;>
      rw [List.countP_append] <;>
      rw [show ∀ x : Content, List.countP _ (([] : Line) :: x) = List.countP _ x
        from fun _ => rfl]
    · rw [hD]; rfl
    · rw [hS]; rfl
    · rw [hSb]; rfl
    · rw [hSup]; rfl

theorem renderPlain_path_irrel (m : Nat → Option Line) (a : AdrMeta) (p : Line)
    (tb : Content) : renderPlain m { a with path := p } tb = renderPlain m a tb := rfl

set_option maxHeartbeats 1600000 in
/-- C2 (amended): under the plain (non-front-matter) configuration,
provided the body tail contains no managed metadata lines, the parsed
title is nonempty and trimmed, the parsed status and date are trimmed
with the date nonempty, the parsed numbers are below `2^32`, and the
record's `Supersedes` reference (if any) does not resolve to a filename
in the collection map (so the first application does not convert a bare
reference into a link the parser cannot read back), `reformat` is
idempotent: applying it to its own output returns the same filename and
byte-identical content, and in that output `Date` and `Status` occur
exactly once while `Superseded-by` and `Supersedes` occur exactly once
when the corresponding field is set and never otherwise. -/
theorem c2_reformat_idempotent_amended
    (cfg : Cfg) (m : Nat → Option Line) (today fname : Line) (content : Content)
    (hplain : cfg.front_matter = false)
    (hn : (parseAdrFile today fname content).number < 2 ^ 32)
    (ht : trimL (parseAdrFile today fname content).title =
      (parseAdrFile today fname content).title)
    (htne : (parseAdrFile today fname content).title ≠ [])
    (hst : trimL (parseAdrFile today fname content).status =
      (parseAdrFile today fname content).status)
    (hd : trimL (parseAdrFile today fname content).date =
      (parseAdrFile today fname content).date)
    (hdne : (parseAdrFile today fname content).date ≠ [])
    (hsb32 : ∀ k, (parseAdrFile today fname content).superseded_by = some k →
      k < 2 ^ 32)
    (hsup32 : ∀ k, (parseAdrFile today fname content).supersedes = some k →
      m k = none ∧ k < 2 ^ 32)
    (htb : ∀ l ∈ bodyAfterMeta content, isMetaLine l = false) :
    reformatDoc cfg m today (reformatDoc cfg m today fname content).1
        (reformatDoc cfg m today fname content).2 =
      reformatDoc cfg m today fname content ∧
    List.countP (fun l => sw (S "Date:") l)
      (reformatDoc cfg m today fname content).2 = 1 ∧
    List.countP (fun l => sw (S "Status:") l)
      (reformatDoc cfg m today fname content).2 = 1 ∧
    List.countP (fun l => sw (S "Superseded-by:") l)
      (reformatDoc cfg m today fname content).2 =
      (if (parseAdrFile today fname content).superseded_by.isSome then 1 else 0) ∧
    List.countP (fun l => sw (S "Supersedes:") l)
      (reformatDoc cfg m today fname content).2 =
      (if (parseAdrFile today fname content).supersedes.isSome then 1 else 0) := by
  have h1 : reformatDoc cfg m today fname content =
      (pad4 (parseAdrFile today fname content).number ++ S "-" ++
        slugify (parseAdrFile today fname content).title ++ S "." ++ cfg.format,
       renderPlain m (parseAdrFile today fname content) (bodyAfterMeta content)) := by
    simp only [reformatDoc, hplain, Bool.false_eq_true, if_false]
  rw [h1]
  dsimp only
  constructor
  · simp only [reformatDoc, hplain, Bool.false_eq_true, if_false]
    rw [parse_renderPlain today _ m _ _ hn ht htne hst hd hdne hsb32 hsup32 htb,
      bodyAfterMeta_renderPlain, tailNorm_bodyAfterMeta,
      renderPlain_path_irrel]
  · exact counts_renderPlain m _ _ (fun k hk => (hsup32 k hk).1) htb

/-! ## Repository model: `repository/fs.rs` -/

/-- The document directory: whether it exists, and its files as an
association list from filename to content, in directory order. -/
structure FileSys where
  dirExists : Bool
  files : List (Line × Content)
  deriving DecidableEq

def lookupFile (st : FileSys) (name : Line) : Option Content :=
  (st.files.find? (fun f => f.1 == name)).map (·.2)

/-- `write_string`: create the directory on demand, replace the file in
place or append a new one. -/
def writeFS (st : FileSys) (name : Line) (content : Content) : FileSys :=
  { dirExists := true
    files :=
      if st.files.any (fun f => f.1 == name) then
        st.files.map (fun f => if f.1 == name then (name, content) else f)
      else st.files ++ [(name, content)] }

/-- `l` ends with `suf`. -/
def endsWithL (suf l : Line) : Bool := sw suf.reverse l.reverse

/-- The `list()` filename filter of `FsAdrRepository`: extension exactly
`md` (hardcoded) and the regex `^\d{4}-.*\.md$` (also hardcoded). -/
def isAdrName (f : Line) : Bool :=
  (match lastIdxP (fun c => c == '.') f with
   | some i => f.drop (i + 1) == S "md"
   | none => false) &&
  (match f with
   | a :: b :: c :: d :: e :: rest =>
     isDigitB a && isDigitB b && isDigitB c && isDigitB d && e == '-' &&
     endsWithL (S ".md") rest
   | _ => false)

/-- Stable insertion by record number (Rust `sort_by_key` is stable, so an
element goes before the already-sorted later elements of equal key). -/
def insertByNumber (a : AdrMeta) : List AdrMeta → List AdrMeta
  | [] => [a]
  | b :: t => if b.number < a.number then b :: insertByNumber a t else a :: b :: t

def sortByNumber : List AdrMeta → List AdrMeta
  | [] => []
  | a :: t => insertByNumber a (sortByNumber t)

/-- `FsAdrRepository::list`: empty when the directory does not exist,
otherwise the parse of every file whose name passes the filter, sorted
by ascending number. -/
def listFS (today : Line) (st : FileSys) : List AdrMeta :=
  if st.dirExists then
    sortByNumber ((st.files.filter (fun f => isAdrName f.1)).map
      (fun f => parseAdrFile today f.1 f.2))
  else []

theorem mem_insertByNumber {x a : AdrMeta} {l : List AdrMeta} :
    x ∈ insertByNumber a l ↔ x = a ∨ x ∈ l := by
  induction l with
  | nil => simp [insertByNumber]
  | cons b t ih =>
    rw [insertByNumber]
    split
    · simp only [List.mem_cons, ih]
      tauto
    · simp only [List.mem_cons]

theorem mem_sortByNumber {x : AdrMeta} {l : List AdrMeta} :
    x ∈ sortByNumber l ↔ x ∈ l := by
  induction l with
  | nil => simp [sortByNumber]
  | cons a t ih =>
    rw [sortByNumber, mem_insertByNumber]
    simp [ih]

/-! ## Index renderer: `actions::write_index` -/

/-- The number-to-filename map built by `write_index` and `reformat`:
a `HashMap` filled by iterating the list, so a later record with the
same number overwrites an earlier one. -/
def byNum (adrs : List AdrMeta) (n : Nat) : Option Line :=
  ((adrs.reverse).find? (fun a => a.number == n)).map (·.path)

/-- One index entry:
`- [<number>: <title>](<filename>) — Status: <display> — Date: <date>`,
where the display status is re-derived as a link when `superseded_by`
is set and the target number has a current filename. -/
def indexLine (byN : Nat → Option Line) (a : AdrMeta) : Line :=
  let sd :=
    match a.superseded_by with
    | some n =>
      match byN n with
      | some t => S "Superseded by [" ++ pad4 n ++ S "](" ++ t ++ S ")"
      | none => S "Superseded by " ++ pad4 n
    | none => a.status
  S "- [" ++ pad4 a.number ++ S ": " ++ a.title ++ S "](" ++ a.path ++
    S ") — Status: " ++ sd ++ S " — Date: " ++ a.date

/-- `write_index`: the heading, a blank line, one entry per record in
the order given, and the final blank line from the trailing newline. -/
def writeIndexLines (adrs : List AdrMeta) : Content :=
  [S "# Architecture Decision Records", []] ++
  adrs.map (indexLine (byNum adrs)) ++ [[]]

/-! ## The in-place update of `actions::mark_superseded` -/

/-- One line of the scan loop: a `Status:` line is rewritten to
`Status: Superseded by <new>`, then a `Superseded-by:` line (checked on
the possibly rewritten line, as in the source) is rewritten to
`Superseded-by: <new>`. Returns the new line and which prefixes hit. -/
def msLine (newNum : Nat) (l : Line) : Line × Bool × Bool :=
  let isS := sw (S "Status:") l
  let l1 := if isS then S "Status: Superseded by " ++ pad4 newNum else l
  let isSb := sw (S "Superseded-by:") l1
  let l2 := if isSb then S "Superseded-by: " ++ pad4 newNum else l1
  (l2, isS, isSb)

/-- The scan loop: rewrite the lines and remember the last index at
which each prefix was seen. -/
def msScan (newNum : Nat) (lines : Content) : Content × Option Nat × Option Nat :=
  lines.enum.foldl
    (fun acc il =>
      let r := msLine newNum il.2
      (acc.1 ++ [r.1],
       if r.2.1 then some il.1 else acc.2.1,
       if r.2.2 then some il.1 else acc.2.2))
    ([], none, none)

/-- Rust `Vec::insert` (the out-of-bounds case, which panics in Rust,
appends; it is unreachable in the modelled uses). -/
def insertAt : List α → Nat → α → List α
  | l, 0, a => a :: l
  | [], _ + 1, a => [a]
  | b :: t, i + 1, a => b :: insertAt t i a

/-- Rust `Vec::remove` (out of bounds, unreachable, is the identity). -/
def removeAt : List α → Nat → List α
  | [], _ => []
  | _ :: t, 0 => t
  | b :: t, i + 1 => b :: removeAt t i

/-- The Status-then-Superseded-by adjacency repair of `mark_superseded`,
using the recorded indices exactly as the source does (without
adjusting them for a Status insertion that happened in between). -/
def msAdjust (newNum : Nat) (lines : Content) (idxS idxSb : Option Nat) : Content :=
  match idxS, idxSb with
  | some s, some sb =>
    if sb ≠ s + 1 then
      insertAt (removeAt lines sb) (if sb < s + 1 then s + 1 - 1 else s + 1)
        (S "Superseded-by: " ++ pad4 newNum)
    else lines
  | some s, none => insertAt lines (s + 1) (S "Superseded-by: " ++ pad4 newNum)
  | none, _ => lines

/-- The `join("\n")` plus ensure-trailing-newline write normalization:
the written file's lines. A single trailing empty line is absorbed by
the join; an empty list becomes one empty line. -/
def writtenLines (l : Content) : Content :=
  if l = [] then [[]]
  else if 2 ≤ l.length ∧ l.getLast? = some ([] : Line) then l.dropLast
  else l

/-- The plain-representation branch of `mark_superseded`. -/
def msPlain (newNum : Nat) (content : Content) : Content :=
  let scanned := msScan newNum content
  let withStatus :=
    if scanned.2.1 = none then
      (insertAt scanned.1 (if scanned.1 ≠ [] then 1 else 0)
        (S "Status: Superseded by " ++ pad4 newNum),
       some (if scanned.1 ≠ [] then 1 else 0))
    else (scanned.1, scanned.2.1)
  writtenLines (msAdjust newNum withStatus.1 withStatus.2 scanned.2.2)

/-- The tail normalization of the front-matter branch assembly
(`join("\n")` with a conditional final newline after a nonempty
prefix). -/
def fmTailNorm (l : Content) : Content :=
  if l = [] ∨ l = [[]] then []
  else if l.getLast? = some ([] : Line) then l.dropLast
  else l

/-- The front-matter branch of `mark_superseded`: keep the block as is,
update the body with the same scan, Status insertion at the top of the
body, and adjacency repair; an unclosed block leaves the content
unchanged. -/
def msFm (newNum : Nat) (content : Content) : Content :=
  match splitFrontMatter content with
  | some (fm, body) =>
    let scanned := msScan newNum body
    let withStatus :=
      if scanned.2.1 = none then
        (insertAt scanned.1 0 (S "Status: Superseded by " ++ pad4 newNum), some 0)
      else (scanned.1, scanned.2.1)
    let adjusted := msAdjust newNum withStatus.1 withStatus.2 scanned.2.2
    let needBlank :=
      !(body.head? == some ([] : Line)) &&
      (match adjusted.head? with
       | some l => !l.isEmpty
       | none => false)
    S "---" :: fm ++ [S "---"] ++ (if needBlank then [([] : Line)] else []) ++
      fmTailNorm adjusted
  | none => content

def notFoundMsg (old : Nat) : Line :=
  S "Could not find ADR " ++ pad4 old ++ S " to supersede"

/-- `actions::mark_superseded`: list, locate the record by number
(aborting with the not-found error before any write), update the file
in place, then refresh the index. -/
def markSupersededFS (cfg : Cfg) (today : Line) (st : FileSys)
    (oldNum newNum : Nat) : Except Line Unit × FileSys :=
  let adrs := listFS today st
  match (adrs.find? (fun a => a.number == oldNum)).map (·.path) with
  | none => (.error (notFoundMsg oldNum), st)
  | some path =>
    match lookupFile st path with
    | none => (.error (S "io error"), st)
    | some contents =>
      let updated :=
        if contents.head? == some (S "---") then msFm newNum contents
        else msPlain newNum contents
      let st1 := writeFS st path updated
      let st2 := writeFS st1 cfg.index_name (writeIndexLines (listFS today st1))
      (.ok (), st2)

/-! ## Claim C1: supersede adjacency -/

def c1Cfg : Cfg := { format := S "md", front_matter := false, index_name := S "index.md", template := none }

/-- C1 failing input: a plain record with a `Superseded-by:` line but no
`Status:` line. -/
def c1St : FileSys :=
  ⟨true, [(S "0001-old.md", [S "# ADR 0001: Old", S "Superseded-by: 0005", S "Body"])]⟩

/-- C1: evaluating `mark_superseded` at the failing input.  The scan
records the `Superseded-by` index before the missing `Status` line is
inserted at index 1 and never adjusts it, so the adjacency repair
removes the just-inserted `Status` line and duplicates the
`Superseded-by` line: the updated file has no `Status` line at all,
contradicting the claimed invariant (and the source's own comment). -/
theorem c1_supersede_adjacency_eval :
    (markSupersededFS c1Cfg (S "2024-05-05") c1St 1 2).1 = .ok () ∧
    lookupFile (markSupersededFS c1Cfg (S "2024-05-05") c1St 1 2).2 (S "0001-old.md") =
      some [S "# ADR 0001: Old", S "Superseded-by: 0002",
        S "Superseded-by: 0002", S "Body"] ∧
    List.countP (fun l => sw (S "Status:") l)
      [S "# ADR 0001: Old", S "Superseded-by: 0002",
       S "Superseded-by: 0002", S "Body"] = 0 := by
  refine ⟨rfl, rfl, by decide⟩

/-! ## Claim C8: the repository listing filter -/

/-- C8: evaluating `list()`.  A missing directory yields the empty list
without an error; but the filename filter hard-codes the `md` extension
(both the `extension() == "md"` check and the `^\d{4}-.*\.md$` regex),
so under a configured `mdx` extension the managed file
`0001-switch-format.mdx` is ignored, while the same name with `.md` is
listed. -/
theorem c8_list_filter_eval :
    listFS (S "2024-05-05") ⟨false, []⟩ = [] ∧
    listFS (S "2024-05-05")
      ⟨true, [(S "0001-switch-format.mdx", [S "# ADR 0001: Switch Format"])]⟩ = [] ∧
    (listFS (S "2024-05-05")
      ⟨true, [(S "0001-switch-format.md", [S "# ADR 0001: Switch Format"])]⟩).length = 1 ∧
    (listFS (S "2024-05-05")
      ⟨true, [(S "README.md", [S "hello"]), (S "0007-a.md", [S "# ADR 0007: A"])]⟩).map
      (fun a => a.number) = [7] := by
  refine ⟨by decide, by decide, by decide, by decide⟩

/-! ## Claim C9: supersede aborts before any write when not found -/

/-- C9: when no listed record carries the requested number,
`mark_superseded` returns the not-found error naming the number and the
repository state is unchanged: the lookup precedes every write. -/
theorem c9_supersede_not_found (cfg : Cfg) (today : Line) (st : FileSys)
    (oldNum newNum : Nat) (h : ∀ a ∈ listFS today st, a.number ≠ oldNum) :
    markSupersededFS cfg today st oldNum newNum = (.error (notFoundMsg oldNum), st) := by
  have hf : (listFS today st).find? (fun a => a.number == oldNum) = none := by
    rw [List.find?_eq_none]
    intro a ha
    simp [h a ha]
  rw [markSupersededFS, hf]
  rfl

def c9St : FileSys :=
  ⟨true, [(S "0002-keep.md", [S "# ADR 0002: Keep", [], S "Date: 2024-01-01",
    S "Status: Accepted", [], S "Body"])]⟩

theorem c9_supersede_not_found_witness :
    (∀ a ∈ listFS (S "2024-05-05") c9St, a.number ≠ 1) ∧
    markSupersededFS c1Cfg (S "2024-05-05") c9St 1 3 =
      (.error (notFoundMsg 1), c9St) :=
  ⟨by decide, c9_supersede_not_found c1Cfg (S "2024-05-05") c9St 1 3 (by decide)⟩

/-- C2 witness input: a freshly created plain document. -/
def c2wDoc : Content :=
  [S "# ADR 0001: First", [], S "Date: 2024-01-02", S "Status: Proposed", [],
   S "## Context", [], S "Body"]

def c2wM : Nat → Option Line := fun _ => none

theorem c2_reformat_idempotent_amended_witness :
    reformatDoc c1Cfg c2wM (S "2024-05-05")
        (reformatDoc c1Cfg c2wM (S "2024-05-05") (S "0001-first.md") c2wDoc).1
        (reformatDoc c1Cfg c2wM (S "2024-05-05") (S "0001-first.md") c2wDoc).2 =
      reformatDoc c1Cfg c2wM (S "2024-05-05") (S "0001-first.md") c2wDoc ∧
    List.countP (fun l => sw (S "Date:") l)
      (reformatDoc c1Cfg c2wM (S "2024-05-05") (S "0001-first.md") c2wDoc).2 = 1 ∧
    List.countP (fun l => sw (S "Status:") l)
      (reformatDoc c1Cfg c2wM (S "2024-05-05") (S "0001-first.md") c2wDoc).2 = 1 ∧
    List.countP (fun l => sw (S "Superseded-by:") l)
      (reformatDoc c1Cfg c2wM (S "2024-05-05") (S "0001-first.md") c2wDoc).2 =
      (if (parseAdrFile (S "2024-05-05") (S "0001-first.md") c2wDoc).superseded_by.isSome
        then 1 else 0) ∧
    List.countP (fun l => sw (S "Supersedes:") l)
      (reformatDoc c1Cfg c2wM (S "2024-05-05") (S "0001-first.md") c2wDoc).2 =
      (if (parseAdrFile (S "2024-05-05") (S "0001-first.md") c2wDoc).supersedes.isSome
        then 1 else 0) :=
  c2_reformat_idempotent_amended c1Cfg c2wM (S "2024-05-05") (S "0001-first.md") c2wDoc
    rfl (by decide) (by decide) (by decide) (by decide) (by decide) (by decide)
    (fun k hk => nomatch hk) (fun k hk => nomatch hk) (by decide)

/-! ## Target resolution: `domain::parse_number` and the accept/reject lookup -/

/-- Rust `str::to_ascii_lowercase`. -/
def toLowerL (l : Line) : Line := l.map toLowerAscii

/-- `domain::parse_number`: trim, strip leading zeros, empty means 0,
otherwise a u32 parse. -/
def parseNumberE (s : Line) : Option Nat :=
  let t := trimL s
  let t2 := t.dropWhile (fun c => c == '0')
  if t2 = [] then some 0 else parseU32 t2

/-- The target lookup shared by `accept` and `reject`: a successful
numeric parse whose number exists wins; otherwise a case-insensitive
exact title match on the trimmed key. -/
def resolveAdr (adrs : List AdrMeta) (key : Line) : Option AdrMeta :=
  match parseNumberE key with
  | some n =>
    if adrs.any (fun a => a.number == n) then adrs.find? (fun a => a.number == n)
    else adrs.find? (fun a => toLowerL a.title == toLowerL (trimL key))
  | none => adrs.find? (fun a => toLowerL a.title == toLowerL (trimL key))

/-! ## File-store lemmas -/

theorem find_write_list (l : List (Line × Content)) (n : Line) (c : Content) :
    (((if l.any (fun f => f.1 == n) then
        l.map (fun f => if f.1 == n then (n, c) else f)
      else l ++ [(n, c)]).find? (fun f => f.1 == n)).map (fun f => f.2)) = some c := by
  by_cases h : l.any (fun f => f.1 == n) = true
  · rw [if_pos h]
    induction l with
    | nil => simp at h
    | cons a t ih =>
      by_cases ha : (a.1 == n) = true
      · simp [List.find?, ha]
      · rw [List.map_cons, if_neg (by simp [ha]), List.find?]
        rw [show (a.1 == n) = false from by simp [ha]]
        exact ih (by simpa [List.any_cons, ha] using h)
  · rw [if_neg h]
    have hl : l.find? (fun f => f.1 == n) = none := by
      rw [List.find?_eq_none]
      intro x hx
      simp only [List.any_eq_true, not_exists, not_and] at h
      intro hc
      exact absurd (by simpa using hc) (by simpa using h x hx)
    rw [List.find?_append, hl]
    simp

theorem lookupFile_writeFS_self (st : FileSys) (n : Line) (c : Content) :
    lookupFile (writeFS st n c) n = some c :=
  find_write_list st.files n c

theorem lookupFile_writeFS_ne (st : FileSys) (n : Line) (c : Content) (q : Line)
    (h : q ≠ n) : lookupFile (writeFS st n c) q = lookupFile st q := by
  show (((if st.files.any (fun f => f.1 == n) then
      st.files.map (fun f => if f.1 == n then (n, c) else f)
    else st.files ++ [(n, c)]).find? (fun f => f.1 == q)).map (fun f => f.2)) = _
  by_cases ha : st.files.any (fun f => f.1 == n) = true
  · rw [if_pos ha]
    have : ∀ l : List (Line × Content),
        (l.map (fun f => if f.1 == n then (n, c) else f)).find? (fun f => f.1 == q) =
          l.find? (fun f => f.1 == q) := by
      intro l
      induction l with
      | nil => rfl
      | cons a t ih =>
        by_cases han : (a.1 == n) = true
        · have h1 : (a.1 == q) = false := by
            simp only [beq_iff_eq] at han
            simp [han, Ne.symm h]
          have h2 : ((n, c).1 == q) = false := by simp [Ne.symm h]
          simp only [List.map_cons, if_pos han, List.find?, h1, h2]
          exact ih
        · have hmap : (if (a.1 == n) = true then (n, c) else a) = a := if_neg han
          simp only [List.map_cons, hmap, List.find?]
          cases haq : (a.1 == q) with
          | true => rfl
          | false => exact ih
    rw [this]
    rfl
  · rw [if_neg ha, List.find?_append,
      show List.find? (fun f => f.1 == q) [(n, c)] = none from by simp [Ne.symm h]]
    cases hl : st.files.find? (fun f => f.1 == q) <;> simp [lookupFile, hl]

theorem lookupFile_writeFS_writeFS (st : FileSys) (p q : Line) (c d : Content) :
    (lookupFile (writeFS (writeFS st p c) q d) p).isSome = true := by
  by_cases h : p = q
  · subst h
    rw [lookupFile_writeFS_self]
    rfl
  · rw [lookupFile_writeFS_ne _ _ _ _ h, lookupFile_writeFS_self]
    rfl

theorem le_foldl_max (l : List Nat) (a : Nat) :
    a ≤ l.foldl max a ∧ ∀ x ∈ l, x ≤ l.foldl max a := by
  induction l generalizing a with
  | nil => exact ⟨Nat.le_refl a, by intro x hx; cases hx⟩
  | cons b t ih =>
    refine ⟨Nat.le_trans (Nat.le_max_left a b) (ih (max a b)).1, ?_⟩
    intro x hx
    rcases List.mem_cons.mp hx with h | h
    · subst h
      exact Nat.le_trans (Nat.le_max_right a x) (ih (max a x)).1
    · exact (ih (max a b)).2 x h

/-! ## `actions::create_new_adr` -/

/-- Fuel-bounded Rust `str::replace` (left-to-right, non-overlapping);
the fuel `l.length` suffices for the nonempty placeholder patterns. -/
def replaceAllAux (pat rep : Line) : Nat → Line → Line
  | 0, l => l
  | _ + 1, [] => []
  | fuel + 1, c :: t =>
    if sw pat (c :: t) then rep ++ replaceAllAux pat rep fuel ((c :: t).drop pat.length)
    else c :: replaceAllAux pat rep fuel t

def replaceAll (pat rep l : Line) : Line := replaceAllAux pat rep l.length l

/-- The supersedes display of `create_new_adr`: a link when the number
resolves to an existing filename, the bare padded number otherwise. -/
def supDisplay (adrs : List AdrMeta) (sup : Option Nat) : Option Line :=
  sup.map (fun n =>
    match (adrs.find? (fun a => a.number == n)).map (fun a => a.path) with
    | some fname => S "[" ++ pad4 n ++ S "](" ++ fname ++ S ")"
    | none => pad4 n)

/-- The Context/Decision/Consequences boilerplate appended by both
non-template branches. -/
def createBoilerplate : Content :=
  [[], S "## Context", [], S "Describe the context and forces at play.", [],
   S "## Decision", [], S "State the decision that was made and why.", [],
   S "## Consequences", [], S "List the trade-offs and follow-ups."]

/-- The document body written by `create_new_adr`: template substitution
when a template is configured (the placeholder replacements applied in
the source's order), otherwise the front-matter or plain skeleton. -/
def createContent (cfg : Cfg) (next : Nat) (title today : Line)
    (supDisp : Option Line) : Content :=
  match cfg.template with
  | some tpl =>
    tpl.map (fun ln =>
      replaceAll (S "\x7b\x7bSUPERSEDES\x7d\x7d") (supDisp.getD [])
        (replaceAll (S "\x7b\x7bSTATUS\x7d\x7d") (S "Proposed")
          (replaceAll (S "\x7b\x7bDATE\x7d\x7d") today
            (replaceAll (S "\x7b\x7bTITLE\x7d\x7d") title
              (replaceAll (S "\x7b\x7bNUMBER\x7d\x7d") (pad4 next) ln)))))
  | none =>
    if cfg.front_matter then
      [S "---", S "title: " ++ escapeYaml title, S "---", [],
       S "Date: " ++ today, S "Status: Proposed"] ++
      (match supDisp with | some s => [S "Supersedes: " ++ s] | none => []) ++
      createBoilerplate
    else
      [S "# ADR " ++ pad4 next ++ S ": " ++ title, [], S "Date: " ++ today,
       S "Status: Proposed"] ++
      (match supDisp with | some s => [S "Supersedes: " ++ s] | none => []) ++
      createBoilerplate

/-- `create_new_adr`: next number is `max().unwrap_or(0) + 1` over the
listing (written here as a fold), computed in `u32` arithmetic — the
increment wraps modulo `2^32` —, the filename is the padded number,
slug and configured extension, and the index is rewritten from the
pushed-and-sorted in-memory list. -/
def createNewAdr (cfg : Cfg) (today : Line) (st : FileSys) (title : Line)
    (sup : Option Nat) : AdrMeta × FileSys :=
  let adrs := listFS today st
  let next := ((adrs.map (fun a => a.number)).foldl max 0 + 1) % 2 ^ 32
  let filename := pad4 next ++ S "-" ++ slugify title ++ S "." ++ cfg.format
  let content := createContent cfg next title today (supDisplay adrs sup)
  let st1 := writeFS st filename content
  let meta : AdrMeta :=
    { number := next, title := title, status := S "Proposed", date := today,
      supersedes := sup, superseded_by := none, path := filename }
  let adrs2 := sortByNumber (adrs ++ [meta])
  let st2 := writeFS st1 cfg.index_name (writeIndexLines adrs2)
  (meta, st2)

theorem foldl_max_lt (l : List Nat) :
    ∀ a b : Nat, a < b → (∀ x ∈ l, x < b) → l.foldl max a < b := by
  induction l with
  | nil => intro a b ha _; exact ha
  | cons x t ih =>
    intro a b ha h
    rw [List.foldl_cons]
    exact ih (max a x) b (max_lt ha (h x (List.mem_cons_self x t)))
      (fun y hy => h y (List.mem_cons_of_mem x hy))

/-- C3 counterexample: the next number is computed in `u32`, so at a
collection listing a record with number `u32::MAX` — reachable, since
the heading probe parses any u32 out of `# ADR <n>: <t>` — the
increment wraps and the created record gets number 0, not
`max(existing) + 1`. -/
def c3cSt : FileSys :=
  ⟨true, [(S "9999-max.md",
    [S "# ADR 4294967295: Max", [], S "Date: 2024-01-01", S "Status: Accepted",
     [], S "Body"])]⟩

theorem c3_create_wrap_counterexample :
    (listFS (S "2024-07-01") c3cSt).map (fun a => a.number) = [4294967295] ∧
    (createNewAdr c1Cfg (S "2024-07-01") c3cSt (S "Next") none).1.number = 0 ∧
    (createNewAdr c1Cfg (S "2024-07-01") c3cSt (S "Next") none).1.number ≠
      ((listFS (S "2024-07-01") c3cSt).map (fun a => a.number)).foldl max 0 + 1 := by
  refine ⟨by decide, by decide, by decide⟩

/-- C3 (amended): `Create` computes the next number in `u32`, that is
`(max(existing) + 1) % 2^32`.  Whenever every listed number is below
`u32::MAX`, that is `max(existing) + 1` exactly: 1 on an empty
collection, strictly above every existing number, gaps never filled.
The file is named `{number:04}-{slug}.{extension}`, the record gets
status `Proposed` and today's date, and the file is written. -/
theorem c3_create_number_name_status (cfg : Cfg) (today : Line) (st : FileSys)
    (title : Line) (sup : Option Nat)
    (h32 : ∀ a ∈ listFS today st, a.number + 1 < 2 ^ 32) :
    (createNewAdr cfg today st title sup).1.number =
      ((listFS today st).map (fun a => a.number)).foldl max 0 + 1 ∧
    (listFS today st = [] → (createNewAdr cfg today st title sup).1.number = 1) ∧
    (∀ a ∈ listFS today st, a.number < (createNewAdr cfg today st title sup).1.number) ∧
    (createNewAdr cfg today st title sup).1.path =
      pad4 ((createNewAdr cfg today st title sup).1.number) ++ S "-" ++
        slugify title ++ S "." ++ cfg.format ∧
    (createNewAdr cfg today st title sup).1.status = S "Proposed" ∧
    (createNewAdr cfg today st title sup).1.date = today ∧
    (lookupFile (createNewAdr cfg today st title sup).2
      (createNewAdr cfg today st title sup).1.path).isSome = true := by
  unfold createNewAdr
  dsimp only
  have hlt : ((listFS today st).map (fun a => a.number)).foldl max 0 + 1 < 2 ^ 32 := by
    have hm : ((listFS today st).map (fun a => a.number)).foldl max 0 < 2 ^ 32 - 1 := by
      apply foldl_max_lt
      · decide
      · intro x hx
        obtain ⟨a, ha, rfl⟩ := List.mem_map.mp hx
        have := h32 a ha
        omega
    omega
  have hnum : (((listFS today st).map (fun a => a.number)).foldl max 0 + 1) % 2 ^ 32 =
      ((listFS today st).map (fun a => a.number)).foldl max 0 + 1 :=
    Nat.mod_eq_of_lt hlt
  refine ⟨hnum, ?_, ?_, rfl, rfl, rfl, ?_⟩
  · intro h
    rw [h]
    rfl
  · intro a ha
    have hle := (le_foldl_max ((listFS today st).map (fun a => a.number)) 0).2 a.number
      (List.mem_map_of_mem _ ha)
    rw [hnum]
    omega
  · exact lookupFile_writeFS_writeFS st _ cfg.index_name _ _

def c3St : FileSys :=
  ⟨true, [(S "0002-b.md", [S "# ADR 0002: B", [], S "Date: 2024-01-01",
    S "Status: Accepted", [], S "Body"])]⟩

theorem c3_create_number_name_status_witness :
    (listFS (S "2024-07-01") c3St).map (fun a => a.number) = [2] ∧
    (createNewAdr c1Cfg (S "2024-07-01") c3St (S "My Title") none).1.number = 3 ∧
    (createNewAdr c1Cfg (S "2024-07-01") c3St (S "My Title") none).1.path =
      S "0003-my-title.md" ∧
    (createNewAdr c1Cfg (S "2024-07-01") c3St (S "My Title") none).1.status =
      S "Proposed" :=
  ⟨by decide, by decide, by decide,
    (c3_create_number_name_status c1Cfg (S "2024-07-01") c3St (S "My Title")
      none (by decide)).2.2.2.2.1⟩

/-! ## Claim C4: the index renderer -/

def c4m1 : AdrMeta :=
  ⟨1, S "One", S "Accepted", S "2024-01-01", none, none, S "0001-one.md"⟩

def c4m2 : AdrMeta :=
  ⟨2, S "Two", S "Proposed", S "2024-01-02", none, none, S "0002-two.md"⟩

/-- C4 counterexample: `write_index` does not sort.  Given the records
in descending order it emits record 0002 before record 0001, so the
output differs from the ascending-order rendering. -/
theorem c4_write_index_counterexample :
    (writeIndexLines [c4m2, c4m1] == writeIndexLines [c4m1, c4m2]) = false ∧
    (writeIndexLines [c4m2, c4m1])[2]? =
      some (S "- [0002: Two](0002-two.md) — Status: Proposed — Date: 2024-01-02") ∧
    (writeIndexLines [c4m2, c4m1])[3]? =
      some (S "- [0001: One](0001-one.md) — Status: Accepted — Date: 2024-01-01") := by
  refine ⟨by decide, by decide, by decide⟩

/-- C4 (amended): the index renderer emits one line per record in the
order given (callers sort before invoking it; the renderer itself does
not sort), each of the documented form, with the display status
re-derived as a link from the superseded-by number and the
number-to-filename map of the same list. -/
theorem c4_write_index_amended (adrs : List AdrMeta) :
    (writeIndexLines adrs).length = adrs.length + 3 ∧
    (∀ i, i < adrs.length →
      (writeIndexLines adrs)[i + 2]? = (adrs[i]?).map (indexLine (byNum adrs))) ∧
    (∀ a ∈ adrs, a.superseded_by = none →
      indexLine (byNum adrs) a =
        S "- [" ++ pad4 a.number ++ S ": " ++ a.title ++ S "](" ++ a.path ++
          S ") — Status: " ++ a.status ++ S " — Date: " ++ a.date) ∧
    (∀ a ∈ adrs, ∀ n t, a.superseded_by = some n → byNum adrs n = some t →
      indexLine (byNum adrs) a =
        S "- [" ++ pad4 a.number ++ S ": " ++ a.title ++ S "](" ++ a.path ++
          S ") — Status: " ++ (S "Superseded by [" ++ pad4 n ++ S "](" ++ t ++ S ")") ++
          S " — Date: " ++ a.date) := by
  refine ⟨?_, ?_, ?_, ?_⟩
  · simp only [writeIndexLines, List.length_append, List.length_map]
    simp
    omega
  · intro i hi
    show (([S "# Architecture Decision Records", []] ++
        adrs.map (indexLine (byNum adrs)) ++ [[]])[i + 2]?) = _
    rw [List.getElem?_append, if_pos (by
      simp only [List.length_append, List.length_map, List.length_cons, List.length_nil]
      omega)]
    rw [List.getElem?_append, if_neg (by
      simp only [List.length_cons, List.length_nil]
      omega)]
    simp [List.getElem?_map]
  · intro a _ha h
    simp only [indexLine, h]
  · intro a _ha n t h1 h2
    simp only [indexLine, h1, h2]

theorem c4_write_index_amended_witness :
    (writeIndexLines [c4m1, c4m2]).length = [c4m1, c4m2].length + 3 ∧
    (writeIndexLines [c4m1, c4m2])[0 + 2]? =
      ([c4m1, c4m2][0]?).map (indexLine (byNum [c4m1, c4m2])) :=
  ⟨(c4_write_index_amended [c4m1, c4m2]).1,
   (c4_write_index_amended [c4m1, c4m2]).2.1 0 (by decide)⟩

/-! ## Claim C5: the inbound-link rewrite of `reformat` -/

/-- The number a `Supersedes: [` line links to: the text between the
first `[` (which the tested prefix pins at index 12) and the first
following `]`, parsed as u32. -/
def supLinkNum (l : Line) : Option Nat :=
  if sw (S "Supersedes: [") l then
    match List.findIdx? (fun c => c == ']') (l.drop 13) with
    | some rb => parseU32 ((l.drop 13).take rb)
    | none => none
  else none

/-- One line of the rewrite loop: when the linked number equals the
reformatted id the whole line is replaced by the canonical link to the
new filename. -/
def rwLine (id : Nat) (newF : Line) (l : Line) : Line :=
  match supLinkNum l with
  | some n => if n == id then S "Supersedes: [" ++ pad4 n ++ S "](" ++ newF ++ S ")" else l
  | none => l

/-- The per-file pass: every line through `rwLine`, plus the changed
flag that decides whether the file is written back. -/
def rwLinkFile (id : Nat) (newF : Line) (c : Content) : Content × Bool :=
  (c.map (rwLine id newF), c.any (fun l => supLinkNum l == some id))

/-- The propagation loop of `reformat`: every listed record other than
the reformatted one is scanned, and rewritten files go through the
write normalization. -/
def propagateLinks (today : Line) (id : Nat) (newF : Line) (st : FileSys) : FileSys :=
  (listFS today st).foldl (fun acc a =>
    if a.number == id then acc
    else
      match lookupFile acc a.path with
      | none => acc
      | some c =>
        let r := rwLinkFile id newF c
        if r.2 then writeFS acc a.path (writtenLines r.1) else acc) st

def c5St : FileSys :=
  ⟨true,
   [(S "0001-old.md", [S "# ADR 0001: Old", S "Body"]),
    (S "0002-b.md",
     [S "# ADR 0002: B", S "Supersedes: [0001](0001-old.md) (see notes)",
      S "Body", []])]⟩

/-- C5 counterexample: the loop replaces the whole `Supersedes: [` line,
so the trailing text after the link (" (see notes)") is dropped, and the
write normalization also drops the file's trailing blank line — content
other than the link target changes. -/
theorem c5_link_rewrite_counterexample :
    lookupFile (propagateLinks (S "2024-06-01") 1 (S "0001-new.md") c5St)
        (S "0002-b.md") =
      some [S "# ADR 0002: B", S "Supersedes: [0001](0001-new.md)", S "Body"] ∧
    (lookupFile c5St (S "0002-b.md")).map List.length = some 4 ∧
    endsWithL (S " (see notes)")
      (S "Supersedes: [0001](0001-old.md) (see notes)") = true ∧
    endsWithL (S " (see notes)") (S "Supersedes: [0001](0001-new.md)") = false := by
  refine ⟨by decide, by decide, by decide, by decide⟩

/-- C5 (amended): a matching `Supersedes: [` line is replaced in its
entirety by the canonical link to the new filename (any other text on
the line is dropped); every non-matching line is left unchanged; the
per-file pass is the line map, and a file with no matching line has a
false changed flag and is not written back. -/
theorem c5_link_rewrite_amended (id : Nat) (newF : Line) (c : Content) :
    (∀ l ∈ c, supLinkNum l = some id →
      rwLine id newF l = S "Supersedes: [" ++ pad4 id ++ S "](" ++ newF ++ S ")") ∧
    (∀ l ∈ c, supLinkNum l ≠ some id → rwLine id newF l = l) ∧
    (rwLinkFile id newF c).1 = c.map (rwLine id newF) ∧
    ((rwLinkFile id newF c).2 = false → (rwLinkFile id newF c).1 = c) := by
  refine ⟨?_, ?_, rfl, ?_⟩
  · intro l _hl h
    rw [rwLine, h]
    simp
  · intro l _hl h
    rw [rwLine]
    cases hn : supLinkNum l with
    | none => rfl
    | some n =>
      rw [hn] at h
      have hne : (n == id) = false := by
        simp only [beq_eq_false_iff_ne, ne_eq]
        intro he
        exact h (by rw [he])
      dsimp only
      simp only [hne, Bool.false_eq_true, if_false]
  · intro h
    show c.map (rwLine id newF) = c
    have hall : ∀ l ∈ c, supLinkNum l ≠ some id := by
      intro l hl he
      rw [rwLinkFile] at h
      simp only [List.any_eq_true, not_exists] at h
      have : ¬((supLinkNum l == some id) = true) := by
        intro hb
        rw [List.any_eq_false] at h
        exact h l hl hb
      exact this (by simp [he])
    conv_rhs => rw [show c = c.map (fun l => l) from by simp]
    apply List.map_congr_left
    intro l hl
    rw [rwLine]
    cases hn : supLinkNum l with
    | none => rfl
    | some n =>
      have hne : (n == id) = false := by
        simp only [beq_eq_false_iff_ne, ne_eq]
        intro he
        exact hall l hl (by rw [hn, he])
      dsimp only
      simp only [hne, Bool.false_eq_true, if_false]


theorem c5_link_rewrite_amended_witness :
    supLinkNum (S "Supersedes: [0001](0001-old.md) x") = some 1 ∧
    rwLine 1 (S "0001-new.md") (S "Supersedes: [0001](0001-old.md) x") =
      S "Supersedes: [" ++ pad4 1 ++ S "](" ++ S "0001-new.md" ++ S ")" :=
  ⟨by decide,
   (c5_link_rewrite_amended 1 (S "0001-new.md")
       [S "Supersedes: [0001](0001-old.md) x"]).1
     (S "Supersedes: [0001](0001-old.md) x") (by decide) (by decide)⟩

/-! ## Claim C6: the accept/reject status transition -/

/-- One line of the transition rewrite: a `Status:` line becomes the
target status line, then a `Date:` line (tested on the possibly
rewritten line, as in the source) becomes the new date line. -/
def trLine (stL dtL l : Line) : Line :=
  let l1 := if sw (S "Status:") l then stL else l
  if sw (S "Date:") l1 then dtL else l1

/-- The loop body of the transition rewrite, also carrying the
found-status and found-date flags. -/
def trStep (stL dtL : Line) (acc : Content × Bool × Bool) (l : Line) :
    Content × Bool × Bool :=
  let isS := sw (S "Status:") l
  let l1 := if isS then stL else l
  let isD := sw (S "Date:") l1
  let l2 := if isD then dtL else l1
  (acc.1 ++ [l2], acc.2.1 || isS, acc.2.2 || isD)

/-- The plain branch of `accept`/`reject`: rewrite, insert missing
Status (at 1 when nonempty) and Date (at 1) lines, then the write
normalization. -/
def trPlain (stL dtL : Line) (c : Content) : Content :=
  let r := c.foldl (trStep stL dtL) ([], false, false)
  let ls1 := if r.2.1 then r.1 else insertAt r.1 (if r.1 ≠ [] then 1 else 0) stL
  let ls2 := if r.2.2 then ls1 else insertAt ls1 1 dtL
  writtenLines ls2

/-- The body rewrite of the front-matter branch: missing lines go to
index 0, and the reassembly's unconditional final newline keeps a
trailing blank line (an empty body becomes one blank line). -/
def trFmTail (stL dtL : Line) (rest : Content) : Content :=
  let r := rest.foldl (trStep stL dtL) ([], false, false)
  let ls1 := if r.2.1 then r.1 else insertAt r.1 0 stL
  let ls2 := if r.2.2 then ls1 else insertAt ls1 0 dtL
  if ls2 = [] then [[]] else ls2

/-- The document transform of `accept`/`reject`: front-matter documents
keep their block (and are left whole when the block is unclosed),
otherwise the plain rewrite runs. -/
def transitionDoc (stL today : Line) (c : Content) : Content :=
  if c.head? == some (S "---") then
    match splitFrontMatter c with
    | some (blk, rest) =>
      S "---" :: blk ++ S "---" :: trFmTail stL (S "Date: " ++ today) rest
    | none => c
  else trPlain stL (S "Date: " ++ today) c

/-- `actions::accept`/`actions::reject`, parametrized by the status
line they write: resolve, rewrite the file, refresh the index, return
the re-parsed record. -/
def transitionFS (stL : Line) (cfg : Cfg) (today : Line) (st : FileSys)
    (key : Line) : Except Line AdrMeta × FileSys :=
  let adrs := listFS today st
  match resolveAdr adrs key with
  | none => (.error (S "ADR not found by id or title: " ++ key), st)
  | some target =>
    match lookupFile st target.path with
    | none => (.error (S "io error"), st)
    | some c =>
      let st1 := writeFS st target.path (transitionDoc stL today c)
      let adrs2 := listFS today st1
      let st2 := writeFS st1 cfg.index_name (writeIndexLines adrs2)
      (match adrs2.find? (fun a => a.number == target.number) with
       | some upd => .ok upd
       | none => .error (S "Updated ADR not found"), st2)

def acceptFS : Cfg → Line → FileSys → Line → Except Line AdrMeta × FileSys :=
  transitionFS (S "Status: Accepted")

def rejectFS : Cfg → Line → FileSys → Line → Except Line AdrMeta × FileSys :=
  transitionFS (S "Status: Rejected")

def c6St : FileSys :=
  ⟨true, [(S "0001-t.md", [S "# ADR 0001: T", [], S "Date: 2024-01-01",
    S "Status: Proposed", [], S "Body", []])]⟩

/-- C6 counterexample: accepting a plain document that ends with a
blank line rewrites Status and Date but also drops the trailing blank
line in the write normalization, so a part of the document other than
the Status and Date lines changes. -/
theorem c6_transition_counterexample :
    lookupFile (acceptFS c1Cfg (S "2024-06-01") c6St (S "1")).2 (S "0001-t.md") =
      some [S "# ADR 0001: T", [], S "Date: 2024-06-01", S "Status: Accepted",
        [], S "Body"] ∧
    (lookupFile c6St (S "0001-t.md")).map List.length = some 7 ∧
    (lookupFile (acceptFS c1Cfg (S "2024-06-01") c6St (S "1")).2
      (S "0001-t.md")).map List.length = some 6 := by
  refine ⟨by decide, by decide, by decide⟩

theorem trStep_foldl (stL dtL : Line) (c : Content) (acc : Content) (bS bD : Bool) :
    c.foldl (trStep stL dtL) (acc, bS, bD) =
      (acc ++ c.map (trLine stL dtL),
       bS || c.any (fun l => sw (S "Status:") l),
       bD || c.any (fun l => sw (S "Date:") (if sw (S "Status:") l then stL else l))) := by
  induction c generalizing acc bS bD with
  | nil => simp
  | cons h t ih =>
    rw [List.foldl_cons,
      show trStep stL dtL (acc, bS, bD) h =
        (acc ++ [trLine stL dtL h], bS || sw (S "Status:") h,
         bD || sw (S "Date:") (if sw (S "Status:") h then stL else h)) from rfl,
      ih]
    simp [Bool.or_assoc]

theorem trPlain_found (stL dtL : Line) (c : Content)
    (hS : c.any (fun l => sw (S "Status:") l) = true)
    (hD : c.any (fun l => sw (S "Date:") (if sw (S "Status:") l then stL else l)) = true) :
    trPlain stL dtL c = writtenLines (c.map (trLine stL dtL)) := by
  rw [trPlain, trStep_foldl]
  dsimp only
  rw [hS, hD]
  simp

theorem anyD_shift (stL : Line) (c : Content)
    (hD : c.any (fun l => sw (S "Date:") l && !sw (S "Status:") l) = true) :
    c.any (fun l => sw (S "Date:") (if sw (S "Status:") l then stL else l)) = true := by
  rw [List.any_eq_true] at hD ⊢
  obtain ⟨l0, hl0, hb⟩ := hD
  rw [Bool.and_eq_true] at hb
  refine ⟨l0, hl0, ?_⟩
  have hsl : sw (S "Status:") l0 = false := by
    cases h0 : sw (S "Status:") l0
    · rfl
    · rw [h0] at hb
      exact absurd hb.2 (by decide)
  rw [hsl]
  simp only [Bool.false_eq_true, if_false]
  exact hb.1

theorem anyD_shift_noS (stL : Line) (c : Content)
    (hS : c.any (fun l => sw (S "Status:") l) = false) :
    c.any (fun l => sw (S "Date:") (if sw (S "Status:") l then stL else l)) =
      c.any (fun l => sw (S "Date:") l) := by
  induction c with
  | nil => rfl
  | cons h t ih =>
    rw [List.any_cons] at hS
    rw [Bool.or_eq_false_iff] at hS
    rw [List.any_cons, List.any_cons, hS.1]
    simp only [Bool.false_eq_true, if_false]
    rw [ih hS.2]

theorem anyD_shift_false (stL : Line) (c : Content) (hsw : sw (S "Date:") stL = false)
    (hD : c.any (fun l => sw (S "Date:") l && !sw (S "Status:") l) = false) :
    c.any (fun l => sw (S "Date:") (if sw (S "Status:") l then stL else l)) = false := by
  rw [List.any_eq_false] at hD ⊢
  intro l hl
  have hDl := hD l hl
  by_cases h0 : sw (S "Status:") l = true
  · simp [h0, hsw]
  · have h0f : sw (S "Status:") l = false := by
      cases hh : sw (S "Status:") l
      · rfl
      · exact absurd hh h0
    simp only [h0f, Bool.false_eq_true, if_false]
    simp only [h0f, Bool.not_false, Bool.and_true] at hDl
    simp [hDl]

theorem trPlain_noStatus (stL dL : Line) (c : Content) (hne : c ≠ [])
    (hS : c.any (fun l => sw (S "Status:") l) = false) :
    trPlain stL dL c =
      writtenLines (
        if c.any (fun l => sw (S "Date:") l) then
          insertAt (c.map (trLine stL dL)) 1 stL
        else insertAt (insertAt (c.map (trLine stL dL)) 1 stL) 1 dL) := by
  rw [trPlain, trStep_foldl]
  dsimp only
  rw [hS, anyD_shift_noS stL c hS]
  have hmapne : c.map (trLine stL dL) ≠ [] := by
    intro hmap
    exact hne (by simpa using hmap)
  cases hD : c.any (fun l => sw (S "Date:") l) with
  | true => simp [hmapne]
  | false => simp [hmapne]

theorem trPlain_noDate (stL dL : Line) (c : Content) (hsw : sw (S "Date:") stL = false)
    (hS : c.any (fun l => sw (S "Status:") l) = true)
    (hD : c.any (fun l => sw (S "Date:") l && !sw (S "Status:") l) = false) :
    trPlain stL dL c = writtenLines (insertAt (c.map (trLine stL dL)) 1 dL) := by
  rw [trPlain, trStep_foldl]
  dsimp only
  rw [hS, anyD_shift_false stL c hsw hD]
  simp

theorem trFmTail_found (stL dL : Line) (rest : Content)
    (hS : rest.any (fun l => sw (S "Status:") l) = true)
    (hD : rest.any (fun l => sw (S "Date:") (if sw (S "Status:") l then stL else l)) = true) :
    trFmTail stL dL rest = rest.map (trLine stL dL) := by
  obtain ⟨l0, hl0, _⟩ := List.any_eq_true.mp hS
  have hrne : rest ≠ [] := List.ne_nil_of_mem hl0
  have hne : rest.map (trLine stL dL) ≠ [] := by
    intro hmap
    exact hrne (by simpa using hmap)
  rw [trFmTail, trStep_foldl]
  dsimp only
  rw [hS, hD]
  simp [hne]

theorem trFmTail_noStatus (stL dL : Line) (rest : Content)
    (hS : rest.any (fun l => sw (S "Status:") l) = false)
    (hD : rest.any (fun l => sw (S "Date:") l) = true) :
    trFmTail stL dL rest = stL :: rest.map (trLine stL dL) := by
  rw [trFmTail, trStep_foldl]
  dsimp only
  rw [hS, anyD_shift_noS stL rest hS, hD]
  simp [insertAt]

theorem trFmTail_noDate (stL dL : Line) (rest : Content) (hsw : sw (S "Date:") stL = false)
    (hS : rest.any (fun l => sw (S "Status:") l) = true)
    (hD : rest.any (fun l => sw (S "Date:") l && !sw (S "Status:") l) = false) :
    trFmTail stL dL rest = dL :: rest.map (trLine stL dL) := by
  rw [trFmTail, trStep_foldl]
  dsimp only
  rw [hS, anyD_shift_false stL rest hsw hD]
  simp [insertAt]

theorem transitionDoc_fm (stL today : Line) (c blk rest : Content)
    (hh : c.head? = some (S "---")) (hsp : splitFrontMatter c = some (blk, rest)) :
    transitionDoc stL today c =
      S "---" :: blk ++ S "---" :: trFmTail stL (S "Date: " ++ today) rest := by
  have hb : (c.head? == some (S "---")) = true := by rw [hh]; rfl
  rw [transitionDoc]
  simp only [hb, if_true, hsp]

/-- C6 (amended): with the target resolved and its file read, accept and
reject write the document transform back to the same filename; that
transform rewrites every `Status:` line to the target status and every
`Date:` line to today, inserts them when missing (at index 1 of a plain
document, at the top of a front-matter body), and leaves every other
line unchanged in order — byte-identically in the front-matter branch,
whose unconditional final newline keeps even a trailing blank line,
while the plain branch's write normalization can drop one trailing
blank line (the counterexample), which is the one divergence from the
original claim. -/
theorem c6_transition_amended (cfg : Cfg) (today : Line) (st : FileSys) (key : Line)
    (tgt : AdrMeta) (c : Content)
    (hres : resolveAdr (listFS today st) key = some tgt)
    (hlook : lookupFile st tgt.path = some c)
    (hidx : cfg.index_name ≠ tgt.path) :
    lookupFile (acceptFS cfg today st key).2 tgt.path =
      some (transitionDoc (S "Status: Accepted") today c) ∧
    lookupFile (rejectFS cfg today st key).2 tgt.path =
      some (transitionDoc (S "Status: Rejected") today c) ∧
    (∀ stL : Line, (c.head? == some (S "---")) = false →
      c.any (fun l => sw (S "Status:") l) = true →
      c.any (fun l => sw (S "Date:") l && !sw (S "Status:") l) = true →
      transitionDoc stL today c =
        writtenLines (c.map (trLine stL (S "Date: " ++ today)))) ∧
    (∀ stL : Line, (c.head? == some (S "---")) = false → c ≠ [] →
      c.any (fun l => sw (S "Status:") l) = false →
      transitionDoc stL today c =
        writtenLines (
          if c.any (fun l => sw (S "Date:") l) then
            insertAt (c.map (trLine stL (S "Date: " ++ today))) 1 stL
          else
            insertAt (insertAt (c.map (trLine stL (S "Date: " ++ today))) 1 stL) 1
              (S "Date: " ++ today))) ∧
    (∀ stL : Line, sw (S "Date:") stL = false →
      (c.head? == some (S "---")) = false →
      c.any (fun l => sw (S "Status:") l) = true →
      c.any (fun l => sw (S "Date:") l && !sw (S "Status:") l) = false →
      transitionDoc stL today c =
        writtenLines (insertAt (c.map (trLine stL (S "Date: " ++ today))) 1
          (S "Date: " ++ today))) ∧
    (∀ stL : Line, ∀ blk rest : Content,
      c.head? = some (S "---") → splitFrontMatter c = some (blk, rest) →
      rest.any (fun l => sw (S "Status:") l) = true →
      rest.any (fun l => sw (S "Date:") l && !sw (S "Status:") l) = true →
      transitionDoc stL today c =
        S "---" :: blk ++ S "---" :: rest.map (trLine stL (S "Date: " ++ today))) ∧
    (∀ stL : Line, ∀ blk rest : Content,
      c.head? = some (S "---") → splitFrontMatter c = some (blk, rest) →
      rest.any (fun l => sw (S "Status:") l) = false →
      rest.any (fun l => sw (S "Date:") l) = true →
      transitionDoc stL today c =
        S "---" :: blk ++ S "---" :: stL ::
          rest.map (trLine stL (S "Date: " ++ today))) ∧
    (∀ stL : Line, ∀ blk rest : Content, sw (S "Date:") stL = false →
      c.head? = some (S "---") → splitFrontMatter c = some (blk, rest) →
      rest.any (fun l => sw (S "Status:") l) = true →
      rest.any (fun l => sw (S "Date:") l && !sw (S "Status:") l) = false →
      transitionDoc stL today c =
        S "---" :: blk ++ S "---" :: (S "Date: " ++ today) ::
          rest.map (trLine stL (S "Date: " ++ today))) ∧
    (∀ l : Line, sw (S "Status:") l = false → sw (S "Date:") l = false →
      trLine (S "Status: Accepted") (S "Date: " ++ today) l = l ∧
      trLine (S "Status: Rejected") (S "Date: " ++ today) l = l) ∧
    (∀ l : Line, sw (S "Status:") l = true →
      trLine (S "Status: Accepted") (S "Date: " ++ today) l = S "Status: Accepted" ∧
      trLine (S "Status: Rejected") (S "Date: " ++ today) l = S "Status: Rejected") ∧
    (∀ l : Line, sw (S "Status:") l = false → sw (S "Date:") l = true →
      trLine (S "Status: Accepted") (S "Date: " ++ today) l = S "Date: " ++ today ∧
      trLine (S "Status: Rejected") (S "Date: " ++ today) l = S "Date: " ++ today) := by
  have hkey : ∀ stL : Line, (transitionFS stL cfg today st key).2 =
      writeFS (writeFS st tgt.path (transitionDoc stL today c)) cfg.index_name
        (writeIndexLines (listFS today (writeFS st tgt.path (transitionDoc stL today c)))) := by
    intro stL
    rw [transitionFS]
    simp only [hres, hlook]
  have hmain : ∀ stL : Line, lookupFile (transitionFS stL cfg today st key).2 tgt.path =
      some (transitionDoc stL today c) := by
    intro stL
    rw [hkey, lookupFile_writeFS_ne _ _ _ _ (Ne.symm hidx), lookupFile_writeFS_self]
  refine ⟨hmain _, hmain _, ?_, ?_, ?_, ?_, ?_, ?_, ?_, ?_, ?_⟩
  · intro stL hhead hS hD
    rw [transitionDoc]
    simp only [hhead, Bool.false_eq_true, if_false]
    exact trPlain_found stL _ c hS (anyD_shift stL c hD)
  · intro stL hhead hne hS
    rw [transitionDoc]
    simp only [hhead, Bool.false_eq_true, if_false]
    exact trPlain_noStatus stL _ c hne hS
  · intro stL hsw hhead hS hD
    rw [transitionDoc]
    simp only [hhead, Bool.false_eq_true, if_false]
    exact trPlain_noDate stL _ c hsw hS hD
  · intro stL blk rest hh hsp hS hD
    rw [transitionDoc_fm stL today c blk rest hh hsp,
      trFmTail_found stL _ rest hS (anyD_shift stL rest hD)]
  · intro stL blk rest hh hsp hS hD
    rw [transitionDoc_fm stL today c blk rest hh hsp,
      trFmTail_noStatus stL _ rest hS hD]
  · intro stL blk rest hsw hh hsp hS hD
    rw [transitionDoc_fm stL today c blk rest hh hsp,
      trFmTail_noDate stL _ rest hsw hS hD]
  · intro l h1 h2
    constructor <;>
      simp only [trLine, h1, h2, Bool.false_eq_true, if_false]
  · intro l h1
    refine ⟨?_, ?_⟩
    · simp only [trLine, h1, if_true,
        show sw (S "Date:") (S "Status: Accepted") = false from by decide,
        Bool.false_eq_true, if_false]
    · simp only [trLine, h1, if_true,
        show sw (S "Date:") (S "Status: Rejected") = false from by decide,
        Bool.false_eq_true, if_false]
  · intro l h1 h2
    constructor <;>
      simp only [trLine, h1, h2, Bool.false_eq_true, if_false, if_true]

def c6wSt : FileSys :=
  ⟨true, [(S "0001-w.md", [S "# ADR 0001: W", [], S "Date: 2024-01-01",
    S "Status: Proposed", [], S "Body"])]⟩

def c6wTgt : AdrMeta :=
  ⟨1, S "W", S "Proposed", S "2024-01-01", none, none, S "0001-w.md"⟩

theorem c6_transition_amended_witness :
    lookupFile (acceptFS c1Cfg (S "2024-06-02") c6wSt (S "1")).2 (S "0001-w.md") =
      some (transitionDoc (S "Status: Accepted") (S "2024-06-02")
        [S "# ADR 0001: W", [], S "Date: 2024-01-01", S "Status: Proposed", [],
         S "Body"]) ∧
    lookupFile (rejectFS c1Cfg (S "2024-06-02") c6wSt (S "1")).2 (S "0001-w.md") =
      some (transitionDoc (S "Status: Rejected") (S "2024-06-02")
        [S "# ADR 0001: W", [], S "Date: 2024-01-01", S "Status: Proposed", [],
         S "Body"]) :=
  ⟨(c6_transition_amended c1Cfg (S "2024-06-02") c6wSt (S "1") c6wTgt
      [S "# ADR 0001: W", [], S "Date: 2024-01-01", S "Status: Proposed", [],
        S "Body"]
      (by decide) (by decide) (by decide)).1,
   (c6_transition_amended c1Cfg (S "2024-06-02") c6wSt (S "1") c6wTgt
      [S "# ADR 0001: W", [], S "Date: 2024-01-01", S "Status: Proposed", [],
        S "Body"]
      (by decide) (by decide) (by decide)).2.1⟩

/-! ## Claim C7: numeric and title resolution -/

theorem dropWhile_zero_replicate_append (k : Nat) (d : Line) :
    (List.replicate k '0' ++ d).dropWhile (fun c => c == '0') =
      d.dropWhile (fun c => c == '0') := by
  induction k with
  | zero => rfl
  | succ k ih => simp [List.replicate_succ, List.dropWhile_cons, ih]

theorem dropWhile_zero_natDigits {n : Nat} (h : 1 ≤ n) :
    (natDigits n).dropWhile (fun c => c == '0') = natDigits n := by
  cases hd : natDigits n with
  | nil => exact absurd hd (natDigits_ne_nil n)
  | cons c t =>
    have hc : c ≠ '0' := natDigits_head_ne_zero h c (by rw [hd]; rfl)
    simp [List.dropWhile_cons, hc]

theorem parseNumberE_pad4 {n : Nat} (h0 : 0 < n) (h32 : n < 2 ^ 32) :
    parseNumberE (pad4 n) = some n := by
  rw [parseNumberE]
  rw [trimL_pad4,
    show pad4 n = List.replicate (4 - (natDigits n).length) '0' ++ natDigits n
      from rfl,
    dropWhile_zero_replicate_append, dropWhile_zero_natDigits h0,
    if_neg (natDigits_ne_nil n),
    parseU32_all_digits (natDigits_all_digit n) (natDigits_ne_nil n)
      (by rw [digitsVal_natDigits]; exact h32),
    digitsVal_natDigits]

theorem parseNumberE_natDigits {n : Nat} (h0 : 0 < n) (h32 : n < 2 ^ 32) :
    parseNumberE (natDigits n) = some n := by
  rw [parseNumberE]
  rw [trimL_digits (natDigits_all_digit n), dropWhile_zero_natDigits h0,
    if_neg (natDigits_ne_nil n),
    parseU32_all_digits (natDigits_all_digit n) (natDigits_ne_nil n)
      (by rw [digitsVal_natDigits]; exact h32),
    digitsVal_natDigits]

/-- C7: the transition lookup resolves the padded form `0003` and the
unpadded form `3` of a record's number to the record found by number —
numeric resolution runs first and ignores titles entirely — and falls
back to the case-insensitive trimmed exact-title match only when the
key's number (if it parses at all) matches no record. -/
theorem c7_transition_resolution (adrs : List AdrMeta) (a : AdrMeta) (key : Line)
    (hnum : adrs.find? (fun b => b.number == a.number) = some a)
    (h0 : 0 < a.number) (h32 : a.number < 2 ^ 32)
    (htitle : adrs.find? (fun b => toLowerL b.title == toLowerL (trimL key)) = some a)
    (hkey : ∀ m, parseNumberE key = some m → adrs.any (fun b => b.number == m) = false) :
    resolveAdr adrs (pad4 a.number) = some a ∧
    resolveAdr adrs (natDigits a.number) = some a ∧
    resolveAdr adrs key = some a := by
  have hany : adrs.any (fun b => b.number == a.number) = true := by
    rw [List.any_eq_true]
    exact ⟨a, List.mem_of_find?_eq_some hnum, by simp⟩
  refine ⟨?_, ?_, ?_⟩
  · simp only [resolveAdr, parseNumberE_pad4 h0 h32, hany, if_true]
    exact hnum
  · simp only [resolveAdr, parseNumberE_natDigits h0 h32, hany, if_true]
    exact hnum
  · cases hp : parseNumberE key with
    | none =>
      simp only [resolveAdr, hp]
      exact htitle
    | some m =>
      simp only [resolveAdr, hp, hkey m hp, Bool.false_eq_true, if_false]
      exact htitle

def c7a : AdrMeta :=
  ⟨3, S "Use Postgres", S "Proposed", S "2024-01-01", none, none,
   S "0003-use-postgres.md"⟩

def c7b : AdrMeta :=
  ⟨1, S "First", S "Accepted", S "2024-01-01", none, none, S "0001-first.md"⟩

theorem c7_transition_resolution_witness :
    resolveAdr [c7b, c7a] (pad4 3) = some c7a ∧
    resolveAdr [c7b, c7a] (natDigits 3) = some c7a ∧
    resolveAdr [c7b, c7a] (S "use POSTGRES") = some c7a :=
  c7_transition_resolution [c7b, c7a] c7a (S "use POSTGRES")
    (by decide) (by decide) (by decide) (by decide)
    (fun m hm => by
      rw [show parseNumberE (S "use POSTGRES") = none from by decide] at hm
      exact Option.noConfusion hm)
